import Mathlib

/-!
A verification development for huak's dependency/environment reconciliation
engine, shallowly embedding `src/huak/ops.rs`.  The metadata store and the
requirement model live in source files that are not available here; those
definitions are modelled from the specification (see the doc comments that
start with "Modelled from the spec:").  External effects (the Python
environment, the installer process, the metadata file on disk) are embedded
as an oracle describing the outcome of each external call, and every
operation returns the list of externally visible events it performed, in
order, together with the final in-memory document and the final on-disk
document.
-/

namespace Huak

/-- Modelled from the spec: name normalization — case-insensitive, with `-`,
`_` and `.` treated as equivalent separators (§4.1).  Lower-cases ASCII
letters and maps `_` and `.` to `-`. -/
def canonicalChar (c : Char) : Char :=
  if c = '_' then '-'
  else if c = '.' then '-'
  else if 'A' ≤ c ∧ c ≤ 'Z' then Char.ofNat (c.toNat + 32)
  else c

/-- Modelled from the spec: the normalized form of a dependency name. -/
def canonicalName (s : String) : String :=
  ⟨s.data.map canonicalChar⟩

/-- Modelled from the spec: identity match — equality of normalized names
only, ignoring any constraint (§3, glossary). -/
def nameMatch (a b : String) : Bool :=
  decide (canonicalName a = canonicalName b)

/-- Modelled from the spec: a parsed dependency requirement — a name plus an
optional version specifier / direct source locator (extras are not needed by
any claim and are omitted).  `dependency.rs` is not in the sources. -/
structure Dep where
  name : String
  versionOrUrl : Option String
deriving DecidableEq

/-- An installed package as reported by the environment: normalized name and
exact installed version (§3). -/
structure Pkg where
  name : String
  version : String
deriving DecidableEq

/-- Modelled from the spec: converting an installed package into a
requirement yields a pinned-exact-version requirement (§4.1); the code does
`Dependency::from_str(&pkg.to_string())` where a package displays as
`name==version`. -/
def depOfPkg (p : Pkg) : Dep :=
  ⟨p.name, some ("==" ++ p.version)⟩

/-- Modelled from the spec: the project metadata document — an optional
required-dependency list plus an optional ordered table of
optional-dependency groups (§3).  `metadata.rs` is not in the sources. -/
structure Metadata where
  dependencies : Option (List Dep)
  optionalDependencies : Option (List (String × List Dep))
deriving DecidableEq

/-- The required-dependency list of a document (empty when absent). -/
def reqList (m : Metadata) : List Dep :=
  m.dependencies.getD []

/-- The optional-dependency table of a document (empty when absent). -/
def optsList (m : Metadata) : List (String × List Dep) :=
  m.optionalDependencies.getD []

/-- Modelled from the spec: `optional_dependency_group` looks the group name
up literally in the optional-dependency table (§4.5). -/
def optionalDependencyGroup (m : Metadata) (g : String) : Option (List Dep) :=
  List.lookup g (optsList m)

/-- The requirements of group `g` (empty when the group is absent). -/
def groupList (m : Metadata) (g : String) : List Dep :=
  (optionalDependencyGroup m g).getD []

/-- Modelled from the spec: `contains_dependency` is the exact-match
predicate — "is this precisely what's declared", full requirement including
the constraint (§4.4, §8). -/
def containsDependency (m : Metadata) (d : Dep) : Bool :=
  decide (d ∈ reqList m)

/-- Modelled from the spec: the exact-match predicate scoped to one optional
group (§4.4). -/
def containsOptionalDependency (m : Metadata) (d : Dep) (g : String) : Bool :=
  decide (d ∈ groupList m g)

/-- Modelled from the spec: `contains_dependency_any` is the identity-match
predicate across the required list and every optional group (§4.4). -/
def containsDependencyAny (m : Metadata) (d : Dep) : Bool :=
  (reqList m).any (fun e => nameMatch e.name d.name) ||
    (optsList m).any (fun p => p.2.any (fun e => nameMatch e.name d.name))

/-- Modelled from the spec: `add_dependency` — no-op if an exact match
already exists, otherwise appended preserving insertion order (§4.4). -/
def addDependency (m : Metadata) (d : Dep) : Metadata :=
  if containsDependency m d then m
  else { m with dependencies := some (reqList m ++ [d]) }

/-- Appends `d` to group `g` of the table, creating the group at the end
when absent. -/
def addGroup (l : List (String × List Dep)) (g : String) (d : Dep) :
    List (String × List Dep) :=
  match l with
  | [] => [(g, [d])]
  | (g', ds) :: rest =>
    if g' = g then (g', ds ++ [d]) :: rest else (g', ds) :: addGroup rest g d

/-- Modelled from the spec: `add_optional_dependency` — no-op if an exact
match already exists in the group, otherwise appended preserving insertion
order (§4.4). -/
def addOptionalDependency (m : Metadata) (d : Dep) (g : String) : Metadata :=
  if containsOptionalDependency m d g then m
  else { m with optionalDependencies := some (addGroup (optsList m) g d) }

/-- Modelled from the spec: `remove_dependency` removes from the required
list by normalized-name identity match, no-op if absent (§4.4). -/
def removeDependency (m : Metadata) (d : Dep) : Metadata :=
  match m.dependencies with
  | none => m
  | some l =>
    { m with dependencies := some (l.filter (fun e => !nameMatch e.name d.name)) }

/-- The per-entry action of `removeOptionalDependency` on the table. -/
def removeGroupEntry (d : Dep) (g : String) (p : String × List Dep) :
    String × List Dep :=
  if p.1 = g then (p.1, p.2.filter (fun e => !nameMatch e.name d.name)) else p

/-- Modelled from the spec: `remove_optional_dependency` removes from group
`g` by normalized-name identity match, no-op if the group is absent (§4.4). -/
def removeOptionalDependency (m : Metadata) (d : Dep) (g : String) : Metadata :=
  match m.optionalDependencies with
  | none => m
  | some l => { m with optionalDependencies := some (l.map (removeGroupEntry d g)) }

/-- Identity equality of two requirements (the requirement model's `==`,
used by `Vec::dedup`): normalized names match (§4.1). -/
def depEq (a b : Dep) : Bool :=
  nameMatch a.name b.name

/-- The run-skipping helper of `dedupAdj`. -/
def dedupAdjGo : Dep → List Dep → List Dep
  | _, [] => []
  | prev, b :: rest => if depEq prev b then dedupAdjGo prev rest else b :: dedupAdjGo b rest

/-- `Vec::dedup`: removes consecutive repeated elements, keeping the first
of each run. -/
def dedupAdj : List Dep → List Dep
  | [] => []
  | a :: rest => a :: dedupAdjGo a rest

/-- Result of `workspace.current_python_environment()`. -/
inductive EnvLookup where
  | found
  | notFound
  | errOther
deriving DecidableEq

/-- Errors surfaced by the embedded operations. -/
inductive OpError where
  | resolveEnvFailed
  | installFailed
  | uninstallFailed
  | updateFailed
  | listFailed
  | pythonEnvironmentError
  | pythonNotFound
  | removeDirFailed
  | commandFailed
deriving DecidableEq

/-- Externally visible actions of an operation, in program order. -/
inductive Event where
  | resolveEnv
  | install (batch : List Dep)
  | uninstall (batch : List Dep)
  | update (batch : List Dep)
  | queryInstalled
  | writeMetadata (m : Metadata)
  | runTool (name : String)
  | removeEnvDir
  | createVenv (path : String)
deriving DecidableEq

/-- Outcomes of the external calls an operation may make: whether each
fallible call succeeds, what `installed_packages()` reports, which modules
`contains_module` finds, and what `current_python_environment()` returns. -/
structure Oracle where
  resolveOk : Bool
  installOk : Bool
  uninstallOk : Bool
  updateOk : Bool
  listOk : Bool
  runOk : Bool
  installedPkgs : List Pkg
  modules : List String
  currentEnv : EnvLookup
deriving DecidableEq

/-- The outcome of one operation: its error (if any), its event trace, the
final in-memory document, and the final on-disk document. -/
structure RunResult where
  err : Option OpError
  events : List Event
  doc : Metadata
  disk : Metadata
deriving DecidableEq

/-- Whether a trace contains a metadata write. -/
def hasWrite (l : List Event) : Bool :=
  l.any (fun e => match e with | .writeMetadata _ => true | _ => false)

/-- The candidate set of `add_project_dependencies`: requested dependencies
not already exactly declared (ops.rs lines 127-134). -/
def addCandidates (dependencies : List Dep) (m : Metadata) : List Dep :=
  dependencies.filter (fun dep => !containsDependency m dep)

/-- The document mutation of `add_project_dependencies` (ops.rs lines
144-159): pin every candidate that lacked a version from the matching
installed package, then add every candidate as-is unless now exactly
declared. -/
def addApplyRequired (m0 : Metadata) (pkgs : List Pkg) (deps : List Dep) : Metadata :=
  (deps.foldl (fun m dep => if containsDependency m dep then m else addDependency m dep) ·)
    ((pkgs.filter (fun pkg =>
        deps.any (fun dep => nameMatch pkg.name dep.name && dep.versionOrUrl.isNone))).foldl
      (fun m pkg => addDependency m (depOfPkg pkg)) m0)

/-- `add_project_dependencies` (ops.rs lines 117-166). -/
def addProjectDependencies (dependencies : List Dep) (m0 : Metadata) (o : Oracle) :
    RunResult :=
  if (addCandidates dependencies m0).isEmpty then ⟨none, [], m0, m0⟩
  else if !o.resolveOk then ⟨some .resolveEnvFailed, [.resolveEnv], m0, m0⟩
  else if !o.installOk then
    ⟨some .installFailed, [.resolveEnv, .install (addCandidates dependencies m0)], m0, m0⟩
  else if !o.listOk then
    ⟨some .listFailed,
      [.resolveEnv, .install (addCandidates dependencies m0), .queryInstalled], m0, m0⟩
  else if addApplyRequired m0 o.installedPkgs (addCandidates dependencies m0) = m0 then
    ⟨none, [.resolveEnv, .install (addCandidates dependencies m0), .queryInstalled], m0, m0⟩
  else
    ⟨none,
      [.resolveEnv, .install (addCandidates dependencies m0), .queryInstalled,
        .writeMetadata (addApplyRequired m0 o.installedPkgs (addCandidates dependencies m0))],
      addApplyRequired m0 o.installedPkgs (addCandidates dependencies m0),
      addApplyRequired m0 o.installedPkgs (addCandidates dependencies m0)⟩

/-- The candidate set of `add_project_optional_dependencies` (ops.rs lines
179-186). -/
def addOptCandidates (dependencies : List Dep) (g : String) (m : Metadata) : List Dep :=
  dependencies.filter (fun dep => !containsOptionalDependency m dep g)

/-- The document mutation of `add_project_optional_dependencies` (ops.rs
lines 196-214). -/
def addApplyOptional (m0 : Metadata) (g : String) (pkgs : List Pkg) (deps : List Dep) :
    Metadata :=
  (deps.foldl (fun m dep =>
      if containsOptionalDependency m dep g then m else addOptionalDependency m dep g) ·)
    ((pkgs.filter (fun pkg =>
        deps.any (fun dep => nameMatch pkg.name dep.name && dep.versionOrUrl.isNone))).foldl
      (fun m pkg => addOptionalDependency m (depOfPkg pkg) g) m0)

/-- `add_project_optional_dependencies` (ops.rs lines 168-221). -/
def addProjectOptionalDependencies (dependencies : List Dep) (g : String)
    (m0 : Metadata) (o : Oracle) : RunResult :=
  if (addOptCandidates dependencies g m0).isEmpty then ⟨none, [], m0, m0⟩
  else if !o.resolveOk then ⟨some .resolveEnvFailed, [.resolveEnv], m0, m0⟩
  else if !o.installOk then
    ⟨some .installFailed, [.resolveEnv, .install (addOptCandidates dependencies g m0)], m0, m0⟩
  else if !o.listOk then
    ⟨some .listFailed,
      [.resolveEnv, .install (addOptCandidates dependencies g m0), .queryInstalled], m0, m0⟩
  else if addApplyOptional m0 g o.installedPkgs (addOptCandidates dependencies g m0) = m0 then
    ⟨none, [.resolveEnv, .install (addOptCandidates dependencies g m0), .queryInstalled],
      m0, m0⟩
  else
    ⟨none,
      [.resolveEnv, .install (addOptCandidates dependencies g m0), .queryInstalled,
        .writeMetadata
          (addApplyOptional m0 g o.installedPkgs (addOptCandidates dependencies g m0))],
      addApplyOptional m0 g o.installedPkgs (addOptCandidates dependencies g m0),
      addApplyOptional m0 g o.installedPkgs (addOptCandidates dependencies g m0)⟩

/-- The candidate set of `remove_project_dependencies`: requested
dependencies declared anywhere by identity (ops.rs lines 735-742). -/
def removeCandidates (dependencies : List Dep) (m : Metadata) : List Dep :=
  dependencies.filter (fun dep => containsDependencyAny m dep)

/-- The document mutation of `remove_project_dependencies` (ops.rs lines
748-759): each candidate is removed from the required list and from every
group of the table. -/
def removeApply (m0 : Metadata) (deps : List Dep) : Metadata :=
  deps.foldl
    (fun m dep =>
      ((optsList m0).map Prod.fst).foldl
        (fun m g => removeOptionalDependency m dep g) (removeDependency m dep))
    m0

/-- `remove_project_dependencies` (ops.rs lines 726-773). -/
def removeProjectDependencies (dependencies : List Dep) (m0 : Metadata) (o : Oracle) :
    RunResult :=
  if (removeCandidates dependencies m0).isEmpty then ⟨none, [], m0, m0⟩
  else
    match o.currentEnv with
    | .found =>
      if o.uninstallOk then
        ⟨none,
          (if removeApply m0 (removeCandidates dependencies m0) = m0 then []
           else [Event.writeMetadata (removeApply m0 (removeCandidates dependencies m0))]) ++
            [.uninstall (removeCandidates dependencies m0)],
          removeApply m0 (removeCandidates dependencies m0),
          (if removeApply m0 (removeCandidates dependencies m0) = m0 then m0
           else removeApply m0 (removeCandidates dependencies m0))⟩
      else
        ⟨some .uninstallFailed,
          (if removeApply m0 (removeCandidates dependencies m0) = m0 then []
           else [Event.writeMetadata (removeApply m0 (removeCandidates dependencies m0))]) ++
            [.uninstall (removeCandidates dependencies m0)],
          removeApply m0 (removeCandidates dependencies m0),
          (if removeApply m0 (removeCandidates dependencies m0) = m0 then m0
           else removeApply m0 (removeCandidates dependencies m0))⟩
    | .notFound =>
      ⟨none,
        (if removeApply m0 (removeCandidates dependencies m0) = m0 then []
         else [Event.writeMetadata (removeApply m0 (removeCandidates dependencies m0))]),
        removeApply m0 (removeCandidates dependencies m0),
        (if removeApply m0 (removeCandidates dependencies m0) = m0 then m0
         else removeApply m0 (removeCandidates dependencies m0))⟩
    | .errOther =>
      ⟨some .pythonEnvironmentError,
        (if removeApply m0 (removeCandidates dependencies m0) = m0 then []
         else [Event.writeMetadata (removeApply m0 (removeCandidates dependencies m0))]),
        removeApply m0 (removeCandidates dependencies m0),
        (if removeApply m0 (removeCandidates dependencies m0) = m0 then m0
         else removeApply m0 (removeCandidates dependencies m0))⟩

/-- Every currently declared requirement: the required list followed by the
requirements of every optional group, in table order (ops.rs lines
870-886). -/
def allDeclared (m : Metadata) : List Dep :=
  reqList m ++ (optsList m).foldl (fun acc p => acc ++ p.2) []

/-- The batch `update_project_dependencies` passes to the installer when no
explicit dependency list is given: all declared requirements after
`Vec::dedup` (ops.rs lines 870-887). -/
def updateBatchAll (m : Metadata) : List Dep :=
  dedupAdj (allDeclared m)

/-- The candidate set of `update_project_dependencies` when an explicit list
is given (ops.rs lines 849-861). -/
def updateCandidates (dependencies : List Dep) (m : Metadata) : List Dep :=
  dependencies.filter (fun dep => containsDependencyAny m dep)

/-- The document refresh of `update_project_dependencies` (ops.rs lines
890-909): every installed package that is exactly declared is removed and
re-added pinned to the installed version, in the required list and in each
group. -/
def updateApply (m0 : Metadata) (pkgs : List Pkg) : Metadata :=
  pkgs.foldl
    (fun m pkg =>
      ((optsList m0).map Prod.fst).foldl
        (fun m g =>
          if containsOptionalDependency m (depOfPkg pkg) g then
            addOptionalDependency (removeOptionalDependency m (depOfPkg pkg) g) (depOfPkg pkg) g
          else m)
        (if containsDependency m (depOfPkg pkg) then
            addDependency (removeDependency m (depOfPkg pkg)) (depOfPkg pkg)
         else m))
    m0

/-- The tail of `update_project_dependencies` after the batched update call:
re-query the installed packages, refresh the document, write iff changed
(ops.rs lines 888-915). -/
def updateFinish (evs : List Event) (m0 : Metadata) (o : Oracle) : RunResult :=
  if !o.listOk then ⟨some .listFailed, evs ++ [.queryInstalled], m0, m0⟩
  else if updateApply m0 o.installedPkgs = m0 then
    ⟨none, evs ++ [.queryInstalled], m0, m0⟩
  else
    ⟨none, evs ++ [.queryInstalled, .writeMetadata (updateApply m0 o.installedPkgs)],
      updateApply m0 o.installedPkgs, updateApply m0 o.installedPkgs⟩

/-- `update_project_dependencies` (ops.rs lines 838-916). -/
def updateProjectDependencies (dependencies : Option (List Dep)) (m0 : Metadata)
    (o : Oracle) : RunResult :=
  if !o.resolveOk then ⟨some .resolveEnvFailed, [.resolveEnv], m0, m0⟩
  else
    match dependencies with
    | some it =>
      if (updateCandidates it m0).isEmpty then ⟨none, [.resolveEnv], m0, m0⟩
      else if !o.updateOk then
        ⟨some .updateFailed, [.resolveEnv, .update (updateCandidates it m0)], m0, m0⟩
      else updateFinish [.resolveEnv, .update (updateCandidates it m0)] m0 o
    | none =>
      if !o.updateOk then
        ⟨some .updateFailed, [.resolveEnv, .update (updateBatchAll m0)], m0, m0⟩
      else updateFinish [.resolveEnv, .update (updateBatchAll m0)] m0 o

/-- The requirement list `install_project_dependencies` assembles before
`Vec::dedup` (ops.rs lines 452-489): the required list when the pseudo-group
"required" is requested and no optional group of that literal name exists;
otherwise the literal lookups of every requested group; with no groups
requested, everything declared. -/
def installBatchRaw (groups : Option (List String)) (m : Metadata) : List Dep :=
  match groups with
  | some gs =>
    if (optionalDependencyGroup m "required").isNone && gs.contains "required" then
      reqList m
    else
      gs.foldl (fun acc g => acc ++ (optionalDependencyGroup m g).getD []) []
  | none => allDeclared m

/-- `install_project_dependencies` (ops.rs lines 444-499). -/
def installProjectDependencies (groups : Option (List String)) (m0 : Metadata)
    (o : Oracle) : RunResult :=
  if (dedupAdj (installBatchRaw groups m0)).isEmpty then ⟨none, [], m0, m0⟩
  else if !o.resolveOk then ⟨some .resolveEnvFailed, [.resolveEnv], m0, m0⟩
  else if !o.installOk then
    ⟨some .installFailed, [.resolveEnv, .install (dedupAdj (installBatchRaw groups m0))],
      m0, m0⟩
  else ⟨none, [.resolveEnv, .install (dedupAdj (installBatchRaw groups m0))], m0, m0⟩

/-- Pin a list of installed packages into the "dev" optional group, in
order (the shared shape of ops.rs lines 249-256, 368-373, 583-588, 815-819,
699-704). -/
def devPinFold (m0 : Metadata) (pkgs : List Pkg) : Metadata :=
  pkgs.foldl (fun m pkg => addOptionalDependency m (depOfPkg pkg) "dev") m0

/-- Shared tail of `build_project`, `test_project` and `publish_project`:
write the document iff it changed, then run the tool once. -/
def finishTool (evs : List Event) (m0 m1 : Metadata) (o : Oracle) (tool : String) :
    RunResult :=
  if m1 = m0 then
    if o.runOk then ⟨none, evs ++ [.runTool tool], m1, m0⟩
    else ⟨some .commandFailed, evs ++ [.runTool tool], m1, m0⟩
  else
    if o.runOk then ⟨none, evs ++ [.writeMetadata m1, .runTool tool], m1, m1⟩
    else ⟨some .commandFailed, evs ++ [.writeMetadata m1, .runTool tool], m1, m1⟩

/-- The common body of `build_project` / `test_project` / `publish_project`
for helper package `helper` (ops.rs lines 232-270, 795-836, 695-725):
install the helper if its module is absent, declare it pinned in the "dev"
group if not declared anywhere, write iff changed, run the tool. -/
def helperToolProject (helper : String) (m0 : Metadata) (o : Oracle) : RunResult :=
  if !o.resolveOk then ⟨some .resolveEnvFailed, [.resolveEnv], m0, m0⟩
  else if !(o.modules.contains helper) && !o.installOk then
    ⟨some .installFailed, [.resolveEnv, .install [⟨helper, none⟩]], m0, m0⟩
  else if containsDependencyAny m0 ⟨helper, none⟩ then
    finishTool
      (Event.resolveEnv ::
        (if o.modules.contains helper then [] else [Event.install [⟨helper, none⟩]]))
      m0 m0 o helper
  else if !o.listOk then
    ⟨some .listFailed,
      (Event.resolveEnv ::
        (if o.modules.contains helper then [] else [Event.install [⟨helper, none⟩]])) ++
        [.queryInstalled], m0, m0⟩
  else
    finishTool
      ((Event.resolveEnv ::
        (if o.modules.contains helper then [] else [Event.install [⟨helper, none⟩]])) ++
        [.queryInstalled])
      m0 (devPinFold m0 (o.installedPkgs.filter (fun pkg => nameMatch pkg.name helper))) o
      helper

/-- `build_project` (ops.rs lines 223-270). -/
def buildProject (m0 : Metadata) (o : Oracle) : RunResult :=
  helperToolProject "build" m0 o

/-- `test_project` (ops.rs lines 786-836). -/
def testProject (m0 : Metadata) (o : Oracle) : RunResult :=
  helperToolProject "pytest" m0 o

/-- `publish_project` (ops.rs lines 676-725). -/
def publishProject (m0 : Metadata) (o : Oracle) : RunResult :=
  helperToolProject "twine" m0 o

/-- The helper names `format_project` still has to declare: its helpers
(black, ruff) not declared anywhere by identity (ops.rs lines 348-358). -/
def formatNewNames (m : Metadata) : List String :=
  (([⟨"black", none⟩, ⟨"ruff", none⟩] : List Dep).filter
      (fun d => !containsDependencyAny m d)).map (fun d => d.name)

/-- The helpers `format_project` must install: black and ruff, filtered to
the modules the environment lacks (ops.rs lines 327-346). -/
def formatMissing (o : Oracle) : List Dep :=
  ([⟨"black", none⟩, ⟨"ruff", none⟩] : List Dep).filter
    (fun d => !(o.modules.contains d.name))

/-- Tail of `format_project`: write the document iff it changed, then run
`ruff --select I001 --fix` followed by `black`. -/
def formatRun (evs : List Event) (m0 m1 : Metadata) (o : Oracle) : RunResult :=
  if m1 = m0 then
    if o.runOk then ⟨none, evs ++ [.runTool "ruff", .runTool "black"], m1, m0⟩
    else ⟨some .commandFailed, evs ++ [.runTool "ruff"], m1, m0⟩
  else
    if o.runOk then
      ⟨none, evs ++ [.writeMetadata m1, .runTool "ruff", .runTool "black"], m1, m1⟩
    else ⟨some .commandFailed, evs ++ [.writeMetadata m1, .runTool "ruff"], m1, m1⟩

/-- `format_project` (ops.rs lines 318-398): install missing helpers,
declare undeclared ones pinned in "dev", write iff changed, then run the
import-sorter and the formatter. -/
def formatProject (m0 : Metadata) (o : Oracle) : RunResult :=
  if !o.resolveOk then ⟨some .resolveEnvFailed, [.resolveEnv], m0, m0⟩
  else if !(formatMissing o).isEmpty && !o.installOk then
    ⟨some .installFailed, [.resolveEnv, .install (formatMissing o)], m0, m0⟩
  else if (formatNewNames m0).isEmpty then
    formatRun
      (Event.resolveEnv ::
        (if (formatMissing o).isEmpty then [] else [Event.install (formatMissing o)]))
      m0 m0 o
  else if !o.listOk then
    ⟨some .listFailed,
      (Event.resolveEnv ::
        (if (formatMissing o).isEmpty then [] else [Event.install (formatMissing o)])) ++
        [.queryInstalled], m0, m0⟩
  else
    formatRun
      ((Event.resolveEnv ::
        (if (formatMissing o).isEmpty then [] else [Event.install (formatMissing o)])) ++
        [.queryInstalled])
      m0
      (devPinFold m0 (o.installedPkgs.filter
        (fun pkg => (formatNewNames m0).any (fun n => nameMatch n pkg.name))))
      o

/-- The lint helpers: ruff always, mypy only when type checking is included
(ops.rs lines 510-536). -/
def lintDeps (includeTypes : Bool) : List Dep :=
  if includeTypes then [⟨"ruff", none⟩, ⟨"mypy", none⟩] else [⟨"ruff", none⟩]

/-- The helper names `lint_project` still has to declare (ops.rs lines
564-574). -/
def lintNewNames (includeTypes : Bool) (m : Metadata) : List String :=
  ((lintDeps includeTypes).filter (fun d => !containsDependencyAny m d)).map
    (fun d => d.name)

/-- The tail of `lint_project` (ops.rs lines 563-593): declare undeclared
helpers pinned in "dev", then write iff changed. -/
def lintFinish (evs : List Event) (includeTypes : Bool) (m0 : Metadata) (o : Oracle) :
    RunResult :=
  if (lintNewNames includeTypes m0).isEmpty then ⟨none, evs, m0, m0⟩
  else if !o.listOk then ⟨some .listFailed, evs ++ [.queryInstalled], m0, m0⟩
  else if devPinFold m0 (o.installedPkgs.filter
      (fun pkg => (lintNewNames includeTypes m0).any (fun n => nameMatch n pkg.name))) = m0 then
    ⟨none, evs ++ [.queryInstalled], m0, m0⟩
  else
    ⟨none,
      evs ++ [.queryInstalled,
        .writeMetadata (devPinFold m0 (o.installedPkgs.filter
          (fun pkg => (lintNewNames includeTypes m0).any (fun n => nameMatch n pkg.name))))],
      devPinFold m0 (o.installedPkgs.filter
        (fun pkg => (lintNewNames includeTypes m0).any (fun n => nameMatch n pkg.name))),
      devPinFold m0 (o.installedPkgs.filter
        (fun pkg => (lintNewNames includeTypes m0).any (fun n => nameMatch n pkg.name)))⟩

/-- `lint_project` (ops.rs lines 501-594): install ruff (and mypy when
requested) if missing, run mypy (when requested) and ruff, then declare the
helpers in "dev" and write iff changed. -/
def lintProject (includeTypes : Bool) (m0 : Metadata) (o : Oracle) : RunResult :=
  if !o.resolveOk then ⟨some .resolveEnvFailed, [.resolveEnv], m0, m0⟩
  else if !(o.modules.contains "ruff") && !o.installOk then
    ⟨some .installFailed, [.resolveEnv, .install [⟨"ruff", none⟩]], m0, m0⟩
  else if includeTypes && !(o.modules.contains "mypy") && !o.installOk then
    ⟨some .installFailed,
      (Event.resolveEnv ::
        (if o.modules.contains "ruff" then [] else [Event.install [⟨"ruff", none⟩]])) ++
        [.install [⟨"mypy", none⟩]], m0, m0⟩
  else if includeTypes && !o.runOk then
    ⟨some .commandFailed,
      (Event.resolveEnv ::
        (if o.modules.contains "ruff" then [] else [Event.install [⟨"ruff", none⟩]])) ++
        (if o.modules.contains "mypy" then [] else [Event.install [⟨"mypy", none⟩]]) ++
        [.runTool "mypy"], m0, m0⟩
  else if !o.runOk then
    ⟨some .commandFailed,
      (Event.resolveEnv ::
        (if o.modules.contains "ruff" then [] else [Event.install [⟨"ruff", none⟩]])) ++
        [.runTool "ruff"], m0, m0⟩
  else
    lintFinish
      ((Event.resolveEnv ::
        (if o.modules.contains "ruff" then [] else [Event.install [⟨"ruff", none⟩]])) ++
        (if includeTypes then
          (if o.modules.contains "mypy" then [] else [Event.install [⟨"mypy", none⟩]]) ++
            [Event.runTool "mypy"]
         else []) ++
        [.runTool "ruff"])
      includeTypes m0 o

/-- A discovered Python interpreter: its reported version string and its
path (§4.2). -/
structure Interp where
  version : String
  path : String
deriving DecidableEq

/-- The outcome of `use_python`: its error (if any) and its filesystem
events. -/
structure UsePyResult where
  err : Option OpError
  events : List Event
deriving DecidableEq

/-- `use_python` (ops.rs lines 918-945): find the first discovered
interpreter whose version string equals the requested one; fail with
Python-not-found when there is none; otherwise remove any existing
environment directory and create a fresh one with that interpreter. -/
def usePython (version : String) (interpreters : List Interp) (removeDirOk venvOk : Bool)
    (currentEnv : EnvLookup) : UsePyResult :=
  match (interpreters.find? (fun py => py.version == version)).map (fun py => py.path) with
  | none => ⟨some .pythonNotFound, []⟩
  | some path =>
    match currentEnv with
    | .found =>
      if removeDirOk then
        if venvOk then ⟨none, [.removeEnvDir, .createVenv path]⟩
        else ⟨some .commandFailed, [.removeEnvDir, .createVenv path]⟩
      else ⟨some .removeDirFailed, [.removeEnvDir]⟩
    | .notFound =>
      if venvOk then ⟨none, [.createVenv path]⟩
      else ⟨some .commandFailed, [.createVenv path]⟩
    | .errOther => ⟨some .pythonEnvironmentError, []⟩

/-! ### General fold helpers -/

theorem foldl_pres {α β : Type} (P : β → Prop) (step : β → α → β)
    (h : ∀ b a, P b → P (step b a)) :
    ∀ (l : List α) (b : β), P b → P (l.foldl step b) := by
  intro l
  induction l with
  | nil => intro b hb; exact hb
  | cons a t ih => intro b hb; exact ih _ (h b a hb)

theorem foldl_estab_inv {α β : Type} (P I : β → Prop) (step : β → α → β) (a : α)
    (hI : ∀ b x, I b → I (step b x))
    (hest : ∀ b, I b → P (step b a))
    (hpres : ∀ b x, P b → P (step b x)) :
    ∀ (l : List α) (b : β), I b → a ∈ l → P (l.foldl step b) := by
  intro l
  induction l with
  | nil => intro b _ h; cases h
  | cons x t ih =>
    intro b hi hmem
    rcases List.mem_cons.mp hmem with h | h
    · subst h
      exact foldl_pres P step hpres t _ (hest b hi)
    · exact ih _ (hI b x hi) h

theorem foldl_estab {α β : Type} (P : β → Prop) (step : β → α → β) (a : α)
    (hest : ∀ b, P (step b a))
    (hpres : ∀ b x, P b → P (step b x)) :
    ∀ (l : List α) (b : β), a ∈ l → P (l.foldl step b) := by
  intro l b hmem
  exact foldl_estab_inv P (fun _ => True) step a (fun _ _ _ => trivial)
    (fun b _ => hest b) hpres l b trivial hmem

/-! ### Basic lemmas about the metadata operations -/

theorem containsDependency_iff {m : Metadata} {d : Dep} :
    containsDependency m d = true ↔ d ∈ reqList m := by
  simp [containsDependency]

theorem containsOptionalDependency_iff {m : Metadata} {d : Dep} {g : String} :
    containsOptionalDependency m d g = true ↔ d ∈ groupList m g := by
  simp [containsOptionalDependency]

theorem reqList_addDependency_self (m : Metadata) (d : Dep) :
    d ∈ reqList (addDependency m d) := by
  unfold addDependency
  by_cases h : containsDependency m d = true
  · simpa [h] using containsDependency_iff.mp h
  · simp only [Bool.not_eq_true] at h
    simp [h, reqList]

theorem reqList_addDependency_mono {m : Metadata} {x : Dep} (d : Dep)
    (hx : x ∈ reqList m) : x ∈ reqList (addDependency m d) := by
  unfold addDependency
  by_cases h : containsDependency m d = true
  · simpa [h]
  · simp only [Bool.not_eq_true] at h
    simp only [h, Bool.false_eq_true, if_false, reqList]
    exact List.mem_append_left _ hx

theorem opts_addDependency (m : Metadata) (d : Dep) :
    (addDependency m d).optionalDependencies = m.optionalDependencies := by
  unfold addDependency
  by_cases h : containsDependency m d = true <;> simp [h]

theorem lookup_addGroup_self (l : List (String × List Dep)) (g : String) (d : Dep) :
    List.lookup g (addGroup l g d) = some ((List.lookup g l).getD [] ++ [d]) := by
  induction l with
  | nil => simp [addGroup, List.lookup]
  | cons p rest ih =>
    obtain ⟨g', ds⟩ := p
    by_cases h : g' = g
    · subst h
      simp [addGroup, List.lookup]
    · have h' : (g == g') = false := by
        simp [Ne.symm h]
      simp [addGroup, h, List.lookup, h', ih]

theorem lookup_addGroup_ne (l : List (String × List Dep)) {g g' : String} (d : Dep)
    (h : g' ≠ g) : List.lookup g' (addGroup l g d) = List.lookup g' l := by
  have hne : (g' == g) = false := by simp [h]
  induction l with
  | nil => simp [addGroup, List.lookup, hne]
  | cons p rest ih =>
    obtain ⟨k, ds⟩ := p
    by_cases hk : k = g
    · subst hk
      simp [addGroup, List.lookup, hne]
    · simp only [addGroup, hk, if_false]
      cases hbe : (g' == k) <;> simp [List.lookup, hbe, ih]

theorem groupList_eq (m : Metadata) (g : String) :
    groupList m g = (List.lookup g (optsList m)).getD [] := rfl

theorem groupList_addOptionalDependency_self (m : Metadata) (d : Dep) (g : String) :
    d ∈ groupList (addOptionalDependency m d g) g := by
  unfold addOptionalDependency
  by_cases h : containsOptionalDependency m d g = true
  · simpa [h] using containsOptionalDependency_iff.mp h
  · simp only [Bool.not_eq_true] at h
    simp only [h, Bool.false_eq_true, if_false]
    show d ∈ (List.lookup g (addGroup (optsList m) g d)).getD []
    rw [lookup_addGroup_self]
    exact List.mem_append_right _ (List.mem_singleton_self d)

theorem groupList_addOptionalDependency_mono {m : Metadata} {x : Dep} {g' : String}
    (d : Dep) (g : String) (hx : x ∈ groupList m g') :
    x ∈ groupList (addOptionalDependency m d g) g' := by
  unfold addOptionalDependency
  by_cases h : containsOptionalDependency m d g = true
  · simpa [h]
  · simp only [Bool.not_eq_true] at h
    simp only [h, Bool.false_eq_true, if_false]
    show x ∈ (List.lookup g' (addGroup (optsList m) g d)).getD []
    by_cases hg : g' = g
    · subst hg
      rw [lookup_addGroup_self]
      exact List.mem_append_left _ hx
    · rw [lookup_addGroup_ne _ _ hg]
      exact hx

theorem deps_addOptionalDependency (m : Metadata) (d : Dep) (g : String) :
    (addOptionalDependency m d g).dependencies = m.dependencies := by
  unfold addOptionalDependency
  by_cases h : containsOptionalDependency m d g = true <;> simp [h]

theorem reqList_addOptionalDependency (m : Metadata) (d : Dep) (g : String) :
    reqList (addOptionalDependency m d g) = reqList m := by
  simp [reqList, deps_addOptionalDependency]

/-! ### Claim C7 -/

/-- C7: for `add_project_dependencies` and `remove_project_dependencies`, if
every requested dependency is filtered out against the current declared
state (every one already exactly declared on add; none declared anywhere on
remove), the operation returns success with no environment resolution, no
installer invocation and no metadata write — the trace is empty and both the
document and the file are untouched. -/
theorem c7_empty_candidates_noop (addReq remReq : List Dep) (m0 : Metadata) (o : Oracle) :
    ((∀ d ∈ addReq, containsDependency m0 d = true) →
      addProjectDependencies addReq m0 o = ⟨none, [], m0, m0⟩) ∧
    ((∀ d ∈ remReq, containsDependencyAny m0 d = false) →
      removeProjectDependencies remReq m0 o = ⟨none, [], m0, m0⟩) := by
  constructor
  · intro h
    have hc : addCandidates addReq m0 = [] := by
      rw [addCandidates, List.filter_eq_nil_iff]
      intro a ha
      simp [h a ha]
    simp [addProjectDependencies, hc]
  · intro h
    have hc : removeCandidates remReq m0 = [] := by
      rw [removeCandidates, List.filter_eq_nil_iff]
      intro a ha
      simp [h a ha]
    simp [removeProjectDependencies, hc]

/-- A concrete metadata document used by the witnesses: one pinned required
dependency and one optional "dev" group. -/
def mEx : Metadata :=
  ⟨some [⟨"click", some "==8.1.3"⟩], some [("dev", [⟨"pytest", none⟩])]⟩

/-- An oracle where every external call succeeds and the environment is
found, reporting no installed packages and no modules. -/
def oOk : Oracle := ⟨true, true, true, true, true, true, [], [], .found⟩

/-- Witness for C7 at a concrete input: re-adding the already declared
`click==8.1.3` and removing the undeclared `numpy` are both complete
no-ops. -/
theorem c7_witness :
    addProjectDependencies [⟨"click", some "==8.1.3"⟩] mEx oOk = ⟨none, [], mEx, mEx⟩ ∧
    removeProjectDependencies [⟨"numpy", none⟩] mEx oOk = ⟨none, [], mEx, mEx⟩ :=
  ⟨(c7_empty_candidates_noop [⟨"click", some "==8.1.3"⟩] [⟨"numpy", none⟩] mEx oOk).1
      (by decide),
    (c7_empty_candidates_noop [⟨"click", some "==8.1.3"⟩] [⟨"numpy", none⟩] mEx oOk).2
      (by decide)⟩

/-! ### Claim C10 -/

/-- C10: `use_python` fails with a Python-not-found error and performs no
filesystem action when no discovered interpreter's version string equals the
requested version; when one matches (the first such), any existing
environment directory is removed and a fresh environment is created with
that interpreter's path. -/
theorem c10_use_python (version : String) (interps : List Interp)
    (rmOk venvOk : Bool) (env : EnvLookup) :
    (interps.find? (fun py => py.version == version) = none →
      usePython version interps rmOk venvOk env = ⟨some .pythonNotFound, []⟩) ∧
    (∀ py, interps.find? (fun py => py.version == version) = some py →
      env = .found → rmOk = true → venvOk = true →
      usePython version interps rmOk venvOk env =
        ⟨none, [.removeEnvDir, .createVenv py.path]⟩) ∧
    (∀ py, interps.find? (fun py => py.version == version) = some py →
      env = .notFound → venvOk = true →
      usePython version interps rmOk venvOk env = ⟨none, [.createVenv py.path]⟩) := by
  refine ⟨fun h => ?_, fun py h henv hr hv => ?_, fun py h henv hv => ?_⟩
  · simp [usePython, h]
  · subst henv hr hv
    simp [usePython, h]
  · subst henv hv
    simp [usePython, h]

/-- Witness for C10 at concrete inputs: requesting version "3.11.1" among
interpreters reporting only "3.10.2" fails without filesystem events, and
requesting "3.10.2" with an existing environment removes it and recreates
it with the matching interpreter. -/
theorem c10_witness :
    usePython "3.11.1" [⟨"3.10.2", "/usr/bin/python3.10"⟩] true true .found =
      ⟨some .pythonNotFound, []⟩ ∧
    usePython "3.10.2" [⟨"3.10.2", "/usr/bin/python3.10"⟩] true true .found =
      ⟨none, [.removeEnvDir, .createVenv "/usr/bin/python3.10"]⟩ :=
  ⟨(c10_use_python "3.11.1" [⟨"3.10.2", "/usr/bin/python3.10"⟩] true true .found).1
      (by decide),
    (c10_use_python "3.10.2" [⟨"3.10.2", "/usr/bin/python3.10"⟩] true true .found).2.1
      ⟨"3.10.2", "/usr/bin/python3.10"⟩ (by decide) rfl rfl rfl⟩

/-! ### Lemmas about dedupAdj and list concatenation -/

theorem dedupAdjGo_subset {x prev : Dep} : ∀ {l : List Dep}, x ∈ dedupAdjGo prev l → x ∈ l := by
  intro l
  induction l generalizing prev with
  | nil => intro h; cases h
  | cons b t ih =>
    intro h
    rw [dedupAdjGo] at h
    by_cases hb : depEq prev b = true
    · simp only [hb, if_true] at h
      exact List.mem_cons_of_mem _ (ih h)
    · simp only [Bool.not_eq_true] at hb
      simp only [hb, Bool.false_eq_true, if_false] at h
      rcases List.mem_cons.mp h with h | h
      · exact h ▸ List.mem_cons_self _ _
      · exact List.mem_cons_of_mem _ (ih h)

theorem dedupAdj_subset {x : Dep} : ∀ {l : List Dep}, x ∈ dedupAdj l → x ∈ l := by
  intro l h
  cases l with
  | nil => cases h
  | cons a t =>
    rw [dedupAdj] at h
    rcases List.mem_cons.mp h with h | h
    · exact h ▸ List.mem_cons_self _ _
    · exact List.mem_cons_of_mem _ (dedupAdjGo_subset h)

theorem dedupAdjGo_eq_self {prev : Dep} :
    ∀ {l : List Dep}, (∀ b ∈ l, depEq prev b = false) →
      l.Pairwise (fun a b => depEq a b = false) → dedupAdjGo prev l = l := by
  intro l
  induction l generalizing prev with
  | nil => intro _ _; rfl
  | cons b t ih =>
    intro hprev hpw
    rw [dedupAdjGo, hprev b (List.mem_cons_self _ _)]
    simp only [Bool.false_eq_true, if_false]
    rw [ih (List.pairwise_cons.mp hpw).1 (List.pairwise_cons.mp hpw).2]

theorem dedupAdj_eq_self {l : List Dep}
    (h : l.Pairwise (fun a b => depEq a b = false)) : dedupAdj l = l := by
  cases l with
  | nil => rfl
  | cons a t =>
    rw [dedupAdj, dedupAdjGo_eq_self (List.pairwise_cons.mp h).1 (List.pairwise_cons.mp h).2]

theorem foldl_append_snd (l : List (String × List Dep)) :
    ∀ acc : List Dep,
      l.foldl (fun acc p => acc ++ p.2) acc = acc ++ (l.map Prod.snd).flatten := by
  induction l with
  | nil => intro acc; simp
  | cons p t ih =>
    intro acc
    simp only [List.foldl_cons, ih, List.map_cons, List.flatten_cons, List.append_assoc]

theorem mem_allDeclared {x : Dep} {m : Metadata} (h : x ∈ allDeclared m) :
    x ∈ reqList m ∨ ∃ p ∈ optsList m, x ∈ p.2 := by
  rw [allDeclared, foldl_append_snd, List.nil_append] at h
  rcases List.mem_append.mp h with h | h
  · exact Or.inl h
  · right
    obtain ⟨l, hl, hx⟩ := List.mem_flatten.mp h
    obtain ⟨p, hp, rfl⟩ := List.mem_map.mp hl
    exact ⟨p, hp, hx⟩

/-! ### Claim C6 -/

/-- A document whose required list and "dev" group both declare `alpha`,
with `beta` between the two occurrences. -/
def mDupAcross : Metadata :=
  ⟨some [⟨"alpha", none⟩, ⟨"beta", none⟩], some [("dev", [⟨"alpha", none⟩])]⟩

/-- Counterexample to C6 as stated: with `alpha` declared both in the
required list and in the "dev" group (non-adjacently, `beta` in between),
`update_project_dependencies None` passes the installer a batch in which
the normalized name `alpha` appears twice — `Vec::dedup` removes only
consecutive duplicates. -/
theorem c6_counterexample :
    Event.update [⟨"alpha", none⟩, ⟨"beta", none⟩, ⟨"alpha", none⟩] ∈
      (updateProjectDependencies none mDupAcross oOk).events ∧
    updateBatchAll mDupAcross = [⟨"alpha", none⟩, ⟨"beta", none⟩, ⟨"alpha", none⟩] ∧
    ((updateBatchAll mDupAcross).filter (fun d => nameMatch d.name "alpha")).length = 2 := by
  decide

/-- C6 amended: update with no explicit list passes the installer, in a
single batch, the required list followed by every optional group with only
consecutive identity-duplicates removed (`Vec::dedup`); every batch entry is
a currently declared requirement, but a normalized name can appear twice
when its occurrences are not adjacent. -/
theorem c6_update_batch (m0 : Metadata) (o : Oracle) (h : o.resolveOk = true) :
    Event.update (updateBatchAll m0) ∈ (updateProjectDependencies none m0 o).events ∧
    updateBatchAll m0 = dedupAdj (allDeclared m0) ∧
    (∀ x ∈ updateBatchAll m0, x ∈ reqList m0 ∨ ∃ p ∈ optsList m0, x ∈ p.2) := by
  refine ⟨?_, rfl, fun x hx => mem_allDeclared (dedupAdj_subset hx)⟩
  rw [updateProjectDependencies]
  simp only [h, Bool.not_true, Bool.false_eq_true, if_false]
  by_cases hu : o.updateOk = true
  · simp only [hu, Bool.not_true, Bool.false_eq_true, if_false]
    rw [updateFinish]
    by_cases hl : o.listOk = true
    · simp only [hl, Bool.not_true, Bool.false_eq_true, if_false]
      split <;> simp
    · simp only [Bool.not_eq_true] at hl
      simp [hl]
  · simp only [Bool.not_eq_true] at hu
    simp [hu]

/-- Witness for C6 amended at a concrete input: the batch for `mEx` is its
two declared requirements and the update event carries it. -/
theorem c6_witness :
    Event.update (updateBatchAll mEx) ∈ (updateProjectDependencies none mEx oOk).events ∧
    updateBatchAll mEx = dedupAdj (allDeclared mEx) ∧
    (∀ x ∈ updateBatchAll mEx, x ∈ reqList mEx ∨ ∃ p ∈ optsList mEx, x ∈ p.2) :=
  c6_update_batch mEx oOk (by decide)

/-! ### Claim C4 -/

theorem lookup_eq_none_of_not_key {l : List (String × List Dep)} {g : String}
    (h : g ∉ l.map Prod.fst) : List.lookup g l = none := by
  induction l with
  | nil => rfl
  | cons p t ih =>
    have hne : g ≠ p.1 := fun he => h (by simp [he])
    have hbe : (g == p.1) = false := by simp [hne]
    rw [List.lookup, hbe]
    exact ih (fun hm => h (List.mem_cons_of_mem _ hm))

theorem foldl_append_map {α : Type} (f : α → List Dep) (l : List α) :
    ∀ acc : List Dep, l.foldl (fun acc a => acc ++ f a) acc = acc ++ (l.map f).flatten := by
  induction l with
  | nil => intro acc; simp
  | cons a t ih =>
    intro acc
    simp only [List.foldl_cons, ih, List.map_cons, List.flatten_cons, List.append_assoc]

/-- C4: `install_project_dependencies` — requesting "required" when no
optional group of that literal name exists assembles exactly the
required-dependency list; otherwise each requested group is looked up
literally, a group absent from the table yields `none` (hence contributes
an empty set), and a missing group never produces an error: with the
environment calls succeeding the operation's error is always `none`. -/
theorem c4_install_groups (gs : List String) (m0 : Metadata) (o : Oracle) :
    ((optionalDependencyGroup m0 "required").isNone = true →
      gs.contains "required" = true → installBatchRaw (some gs) m0 = reqList m0) ∧
    ((optionalDependencyGroup m0 "required").isSome = true ∨
        gs.contains "required" = false →
      ∀ d, d ∈ installBatchRaw (some gs) m0 ↔
        ∃ g ∈ gs, d ∈ (optionalDependencyGroup m0 g).getD []) ∧
    (∀ g, g ∉ (optsList m0).map Prod.fst → optionalDependencyGroup m0 g = none) ∧
    (o.resolveOk = true → o.installOk = true →
      (installProjectDependencies (some gs) m0 o).err = none) ∧
    ((optionalDependencyGroup m0 "required").isNone = true →
      gs.contains "required" = true →
      (reqList m0).Pairwise (fun a b => depEq a b = false) →
      (reqList m0).isEmpty = false → o.resolveOk = true → o.installOk = true →
      (installProjectDependencies (some gs) m0 o).events =
        [.resolveEnv, .install (reqList m0)]) := by
  refine ⟨fun h1 h2 => ?_, fun hcond d => ?_, fun g hg => ?_, fun hr hi => ?_,
    fun h1 h2 hpw hne hr hi => ?_⟩
  · have hc : ((optionalDependencyGroup m0 "required").isNone &&
        gs.contains "required") = true := by rw [h1, h2]; rfl
    rw [installBatchRaw]
    simp only [hc, if_true]
  · have hc : ((optionalDependencyGroup m0 "required").isNone &&
        gs.contains "required") = false := by
      rcases hcond with h | h
      · obtain ⟨x, hx⟩ := Option.isSome_iff_exists.mp h
        have hn : (optionalDependencyGroup m0 "required").isNone = false := by
          rw [hx]; rfl
        rw [hn, Bool.false_and]
      · rw [h, Bool.and_false]
    rw [installBatchRaw]
    simp only [hc, Bool.false_eq_true, if_false]
    rw [foldl_append_map (fun g => (optionalDependencyGroup m0 g).getD []) gs,
      List.nil_append]
    constructor
    · intro hd
      obtain ⟨l, hl, hx⟩ := List.mem_flatten.mp hd
      obtain ⟨g, hg, rfl⟩ := List.mem_map.mp hl
      exact ⟨g, hg, hx⟩
    · rintro ⟨g, hg, hd⟩
      exact List.mem_flatten.mpr ⟨_, List.mem_map_of_mem _ hg, hd⟩
  · exact lookup_eq_none_of_not_key hg
  · rw [installProjectDependencies]
    by_cases he : (dedupAdj (installBatchRaw (some gs) m0)).isEmpty = true
    · simp [he]
    · simp only [Bool.not_eq_true] at he
      simp [he, hr, hi]
  · have hc : ((optionalDependencyGroup m0 "required").isNone &&
        gs.contains "required") = true := by rw [h1, h2]; rfl
    have hb : installBatchRaw (some gs) m0 = reqList m0 := by
      rw [installBatchRaw]
      simp only [hc, if_true]
    rw [installProjectDependencies, hb, dedupAdj_eq_self hpw]
    simp [hne, hr, hi]

/-- Witness for C4 at concrete inputs: on `mEx` (which has no "required"
optional group) requesting `["required"]` assembles and installs exactly the
required list, requesting `["dev", "nope"]` yields exactly the literal
lookups with the absent group `"nope"` contributing nothing, and neither
request errors. -/
theorem c4_witness :
    installBatchRaw (some ["required"]) mEx = reqList mEx ∧
    (∀ d, d ∈ installBatchRaw (some ["dev", "nope"]) mEx ↔
      ∃ g ∈ ["dev", "nope"], d ∈ (optionalDependencyGroup mEx g).getD []) ∧
    optionalDependencyGroup mEx "nope" = none ∧
    (installProjectDependencies (some ["required"]) mEx oOk).err = none ∧
    (installProjectDependencies (some ["required"]) mEx oOk).events =
      [.resolveEnv, .install (reqList mEx)] :=
  ⟨(c4_install_groups ["required"] mEx oOk).1 (by decide) (by decide),
    (c4_install_groups ["dev", "nope"] mEx oOk).2.1 (Or.inr (by decide)),
    (c4_install_groups ["dev", "nope"] mEx oOk).2.2.1 "nope" (by decide),
    (c4_install_groups ["required"] mEx oOk).2.2.2.1 rfl rfl,
    (c4_install_groups ["required"] mEx oOk).2.2.2.2 (by decide) (by decide) (by decide)
      (by decide) rfl rfl⟩

/-! ### Claim C8 -/

@[simp] theorem hasWrite_nil : hasWrite [] = false := rfl

@[simp] theorem hasWrite_cons (e : Event) (l : List Event) :
    hasWrite (e :: l) =
      ((match e with | .writeMetadata _ => true | _ => false) || hasWrite l) := by
  simp [hasWrite]

@[simp] theorem hasWrite_append (l1 l2 : List Event) :
    hasWrite (l1 ++ l2) = (hasWrite l1 || hasWrite l2) := by
  simp [hasWrite]

/-- The write-only-on-change contract of one run: a metadata write appears
in the trace exactly when the final in-memory document differs from the
snapshot loaded at the start, no write leaves the file as loaded, and a
write persists exactly the final document. -/
def writeGateOk (r : RunResult) (m0 : Metadata) : Prop :=
  (hasWrite r.events = true ↔ r.doc ≠ m0) ∧
  (hasWrite r.events = false → r.disk = m0) ∧
  (hasWrite r.events = true → r.disk = r.doc)

theorem writeGate_updateFinish (evs : List Event) (m0 : Metadata) (o : Oracle)
    (h : hasWrite evs = false) : writeGateOk (updateFinish evs m0 o) m0 := by
  rw [writeGateOk, updateFinish]
  by_cases hl : o.listOk = true
  · simp only [hl, Bool.not_true, Bool.false_eq_true, if_false]
    by_cases hc : updateApply m0 o.installedPkgs = m0 <;> simp [hc, h]
  · simp only [Bool.not_eq_true] at hl
    simp [hl, h]

/-- C8: in every mutating dependency command (add, add-optional, remove,
update), the metadata file is written iff the live document differs from the
snapshot loaded at the operation's start; when nothing changed no write
occurs and the file content stays as loaded. -/
theorem c8_write_iff_changed (deps : List Dep) (grp : String) (m0 : Metadata)
    (o : Oracle) (udeps : Option (List Dep)) :
    writeGateOk (addProjectDependencies deps m0 o) m0 ∧
    writeGateOk (addProjectOptionalDependencies deps grp m0 o) m0 ∧
    writeGateOk (removeProjectDependencies deps m0 o) m0 ∧
    writeGateOk (updateProjectDependencies udeps m0 o) m0 := by
  refine ⟨?_, ?_, ?_, ?_⟩
  · rw [writeGateOk, addProjectDependencies]
    by_cases he : (addCandidates deps m0).isEmpty = true
    · simp [he]
    · simp only [Bool.not_eq_true] at he
      by_cases hr : o.resolveOk = true
      · by_cases hi : o.installOk = true
        · by_cases hl : o.listOk = true
          · by_cases hc : addApplyRequired m0 o.installedPkgs (addCandidates deps m0) = m0 <;>
              simp [he, hr, hi, hl, hc]
          · simp only [Bool.not_eq_true] at hl
            simp [he, hr, hi, hl]
        · simp only [Bool.not_eq_true] at hi
          simp [he, hr, hi]
      · simp only [Bool.not_eq_true] at hr
        simp [he, hr]
  · rw [writeGateOk, addProjectOptionalDependencies]
    by_cases he : (addOptCandidates deps grp m0).isEmpty = true
    · simp [he]
    · simp only [Bool.not_eq_true] at he
      by_cases hr : o.resolveOk = true
      · by_cases hi : o.installOk = true
        · by_cases hl : o.listOk = true
          · by_cases hc :
              addApplyOptional m0 grp o.installedPkgs (addOptCandidates deps grp m0) = m0 <;>
              simp [he, hr, hi, hl, hc]
          · simp only [Bool.not_eq_true] at hl
            simp [he, hr, hi, hl]
        · simp only [Bool.not_eq_true] at hi
          simp [he, hr, hi]
      · simp only [Bool.not_eq_true] at hr
        simp [he, hr]
  · rw [writeGateOk, removeProjectDependencies]
    by_cases he : (removeCandidates deps m0).isEmpty = true
    · simp [he]
    · simp only [Bool.not_eq_true] at he
      cases henv : o.currentEnv
      · by_cases hu : o.uninstallOk = true <;>
          by_cases hc : removeApply m0 (removeCandidates deps m0) = m0 <;>
          simp [he, henv, hu, hc]
      · by_cases hc : removeApply m0 (removeCandidates deps m0) = m0 <;>
          simp [he, henv, hc]
      · by_cases hc : removeApply m0 (removeCandidates deps m0) = m0 <;>
          simp [he, henv, hc]
  · rw [updateProjectDependencies.eq_def]
    by_cases hr : o.resolveOk = true
    · simp only [hr, Bool.not_true, Bool.false_eq_true, if_false]
      cases udeps with
      | some it =>
        by_cases he : (updateCandidates it m0).isEmpty = true
        · simp [writeGateOk, he]
        · simp only [Bool.not_eq_true] at he
          by_cases hu : o.updateOk = true
          · simp only [he, Bool.false_eq_true, if_false, hu, Bool.not_true]
            exact writeGate_updateFinish _ m0 o (by simp)
          · simp only [Bool.not_eq_true] at hu
            simp [writeGateOk, he, hu]
      | none =>
        by_cases hu : o.updateOk = true
        · simp only [hu, Bool.not_true, Bool.false_eq_true, if_false]
          exact writeGate_updateFinish _ m0 o (by simp)
        · simp only [Bool.not_eq_true] at hu
          simp [writeGateOk, hu]
    · simp only [Bool.not_eq_true] at hr
      simp [writeGateOk, hr]

/-- Witness for C8 at a concrete input: the write gate holds for each of
the four mutating commands run on `mEx`. -/
theorem c8_witness :
    writeGateOk (addProjectDependencies [⟨"ruff", none⟩] mEx oOk) mEx ∧
    writeGateOk (addProjectOptionalDependencies [⟨"ruff", none⟩] "dev" mEx oOk) mEx ∧
    writeGateOk (removeProjectDependencies [⟨"ruff", none⟩] mEx oOk) mEx ∧
    writeGateOk (updateProjectDependencies none mEx oOk) mEx :=
  c8_write_iff_changed [⟨"ruff", none⟩] "dev" mEx oOk none

/-! ### Claim C2 -/

/-- An oracle where the batched uninstall fails while everything else
succeeds and the environment is found. -/
def oUninstallFail : Oracle := ⟨true, true, false, true, true, true, [], [], .found⟩

/-- Counterexample to C2 as stated: `remove_project_dependencies` mutates
and writes the metadata document before performing the environment
uninstall, so a failed uninstall is preceded by a completed metadata write —
removing `click` from `mEx` with a failing uninstall still rewrites the
file. -/
theorem c2_counterexample :
    (removeProjectDependencies [⟨"click", none⟩] mEx oUninstallFail).err =
      some .uninstallFailed ∧
    hasWrite (removeProjectDependencies [⟨"click", none⟩] mEx oUninstallFail).events =
      true ∧
    (removeProjectDependencies [⟨"click", none⟩] mEx oUninstallFail).disk ≠ mEx := by
  decide

/-- A failed run never wrote the file: the trace has no write and the disk
still holds the loaded snapshot. -/
def failNoWrite (r : RunResult) (m0 : Metadata) : Prop :=
  r.err.isSome = true → hasWrite r.events = false ∧ r.disk = m0

/-- C2 amended: for add, add-optional and update the batched environment
operation precedes any metadata write — a write in the trace implies the
environment operation succeeded and appears in the trace, and a failed run
performs no write; `remove_project_dependencies` instead writes the metadata
before attempting the uninstall: its trace splits into a write phase
followed by an uninstall phase, and when the environment uninstall fails the
metadata write (if the document changed) has already happened. -/
theorem c2_env_op_vs_write (deps : List Dep) (grp : String) (m0 : Metadata)
    (o : Oracle) (udeps : Option (List Dep)) :
    (failNoWrite (addProjectDependencies deps m0 o) m0 ∧
      (hasWrite (addProjectDependencies deps m0 o).events = true →
        o.installOk = true ∧
        Event.install (addCandidates deps m0) ∈ (addProjectDependencies deps m0 o).events)) ∧
    (failNoWrite (addProjectOptionalDependencies deps grp m0 o) m0 ∧
      (hasWrite (addProjectOptionalDependencies deps grp m0 o).events = true →
        o.installOk = true ∧
        Event.install (addOptCandidates deps grp m0) ∈
          (addProjectOptionalDependencies deps grp m0 o).events)) ∧
    (failNoWrite (updateProjectDependencies udeps m0 o) m0 ∧
      (hasWrite (updateProjectDependencies udeps m0 o).events = true →
        o.updateOk = true ∧
        ∃ b, Event.update b ∈ (updateProjectDependencies udeps m0 o).events)) ∧
    ((∃ l1 l2, (removeProjectDependencies deps m0 o).events = l1 ++ l2 ∧
        (∀ b, Event.uninstall b ∉ l1) ∧ hasWrite l2 = false) ∧
      (o.currentEnv = .found → o.uninstallOk = false →
        (removeCandidates deps m0).isEmpty = false →
        removeApply m0 (removeCandidates deps m0) ≠ m0 →
        (removeProjectDependencies deps m0 o).err = some .uninstallFailed ∧
        hasWrite (removeProjectDependencies deps m0 o).events = true)) := by
  refine ⟨?_, ?_, ?_, ?_⟩
  · rw [failNoWrite, addProjectDependencies]
    by_cases he : (addCandidates deps m0).isEmpty = true
    · simp [he]
    · simp only [Bool.not_eq_true] at he
      by_cases hr : o.resolveOk = true
      · by_cases hi : o.installOk = true
        · by_cases hl : o.listOk = true
          · by_cases hc : addApplyRequired m0 o.installedPkgs (addCandidates deps m0) = m0 <;>
              simp [he, hr, hi, hl, hc]
          · simp only [Bool.not_eq_true] at hl
            simp [he, hr, hi, hl]
        · simp only [Bool.not_eq_true] at hi
          simp [he, hr, hi]
      · simp only [Bool.not_eq_true] at hr
        simp [he, hr]
  · rw [failNoWrite, addProjectOptionalDependencies]
    by_cases he : (addOptCandidates deps grp m0).isEmpty = true
    · simp [he]
    · simp only [Bool.not_eq_true] at he
      by_cases hr : o.resolveOk = true
      · by_cases hi : o.installOk = true
        · by_cases hl : o.listOk = true
          · by_cases hc :
              addApplyOptional m0 grp o.installedPkgs (addOptCandidates deps grp m0) = m0 <;>
              simp [he, hr, hi, hl, hc]
          · simp only [Bool.not_eq_true] at hl
            simp [he, hr, hi, hl]
        · simp only [Bool.not_eq_true] at hi
          simp [he, hr, hi]
      · simp only [Bool.not_eq_true] at hr
        simp [he, hr]
  · rw [failNoWrite, updateProjectDependencies.eq_def]
    by_cases hr : o.resolveOk = true
    · simp only [hr, Bool.not_true, Bool.false_eq_true, if_false]
      cases udeps with
      | some it =>
        by_cases he : (updateCandidates it m0).isEmpty = true
        · simp [he]
        · simp only [Bool.not_eq_true] at he
          by_cases hu : o.updateOk = true
          · simp only [he, Bool.false_eq_true, if_false, hu, Bool.not_true]
            rw [updateFinish]
            by_cases hl : o.listOk = true
            · simp only [hl, Bool.not_true, Bool.false_eq_true, if_false]
              by_cases hc : updateApply m0 o.installedPkgs = m0 <;> simp [hc, hu]
            · simp only [Bool.not_eq_true] at hl
              simp [hl]
          · simp only [Bool.not_eq_true] at hu
            simp [he, hu]
      | none =>
        by_cases hu : o.updateOk = true
        · simp only [hu, Bool.not_true, Bool.false_eq_true, if_false]
          rw [updateFinish]
          by_cases hl : o.listOk = true
          · simp only [hl, Bool.not_true, Bool.false_eq_true, if_false]
            by_cases hc : updateApply m0 o.installedPkgs = m0 <;> simp [hc, hu]
          · simp only [Bool.not_eq_true] at hl
            simp [hl]
        · simp only [Bool.not_eq_true] at hu
          simp [hu]
    · simp only [Bool.not_eq_true] at hr
      simp [hr]
  · rw [removeProjectDependencies]
    by_cases he : (removeCandidates deps m0).isEmpty = true
    · refine ⟨⟨[], [], by simp [he], by simp, by simp⟩, ?_⟩
      intro _ _ hne
      rw [he] at hne
      cases hne
    · simp only [Bool.not_eq_true] at he
      by_cases hc : removeApply m0 (removeCandidates deps m0) = m0
      · cases henv : o.currentEnv
        · by_cases hu : o.uninstallOk = true
          · refine ⟨⟨[], [Event.uninstall (removeCandidates deps m0)],
              by simp [he, hc, hu, henv], by simp, by simp⟩, ?_⟩
            intro _ hu'
            rw [hu] at hu'
            cases hu'
          · simp only [Bool.not_eq_true] at hu
            refine ⟨⟨[], [Event.uninstall (removeCandidates deps m0)],
              by simp [he, hc, hu, henv], by simp, by simp⟩, ?_⟩
            intro _ _ _ hcc
            exact absurd hc hcc
        · exact ⟨⟨[], [], by simp [he, hc, henv], by simp, by simp⟩,
            fun henv' => nomatch henv'⟩
        · exact ⟨⟨[], [], by simp [he, hc, henv], by simp, by simp⟩,
            fun henv' => nomatch henv'⟩
      · cases henv : o.currentEnv
        · by_cases hu : o.uninstallOk = true
          · refine ⟨⟨[Event.writeMetadata (removeApply m0 (removeCandidates deps m0))],
              [Event.uninstall (removeCandidates deps m0)],
              by simp [he, hc, hu, henv], by simp, by simp⟩, ?_⟩
            intro _ hu'
            rw [hu] at hu'
            cases hu'
          · simp only [Bool.not_eq_true] at hu
            refine ⟨⟨[Event.writeMetadata (removeApply m0 (removeCandidates deps m0))],
              [Event.uninstall (removeCandidates deps m0)],
              by simp [he, hc, hu, henv], by simp, by simp⟩, ?_⟩
            intro _ _ _ _
            constructor
            · simp [he, hc, hu, henv]
            · simp [he, hc, hu, henv]
        · exact ⟨⟨[Event.writeMetadata (removeApply m0 (removeCandidates deps m0))], [],
            by simp [he, hc, henv], by simp, by simp⟩,
            fun henv' => nomatch henv'⟩
        · exact ⟨⟨[Event.writeMetadata (removeApply m0 (removeCandidates deps m0))], [],
            by simp [he, hc, henv], by simp, by simp⟩,
            fun henv' => nomatch henv'⟩

/-- Witness for C2 amended at a concrete input: the add/update parts and the
remove trace split, instantiated on `mEx`, with the failing-uninstall fact
discharged on `oUninstallFail`. -/
theorem c2_witness :
    (failNoWrite (addProjectDependencies [⟨"ruff", none⟩] mEx oUninstallFail) mEx ∧
      (hasWrite (addProjectDependencies [⟨"ruff", none⟩] mEx oUninstallFail).events = true →
        oUninstallFail.installOk = true ∧
        Event.install (addCandidates [⟨"ruff", none⟩] mEx) ∈
          (addProjectDependencies [⟨"ruff", none⟩] mEx oUninstallFail).events)) ∧
    ((removeProjectDependencies [⟨"click", none⟩] mEx oUninstallFail).err =
        some .uninstallFailed ∧
      hasWrite (removeProjectDependencies [⟨"click", none⟩] mEx oUninstallFail).events =
        true) :=
  ⟨(c2_env_op_vs_write [⟨"ruff", none⟩] "dev" mEx oUninstallFail none).1,
    (c2_env_op_vs_write [⟨"click", none⟩] "dev" mEx oUninstallFail none).2.2.2.2
      rfl rfl (by decide) (by decide)⟩

/-! ### Claim C1 -/

/-- A document already declaring `pkg` pinned to 1.0. -/
def mPinned : Metadata := ⟨some [⟨"pkg", some "==1.0"⟩], none⟩

/-- Counterexample to C1 as stated: adding `pkg==2.0` when `pkg==1.0` is
already declared is not skipped — the add filter and guard use the
exact-match predicate, so the required list ends with two requirements
sharing the normalized name `pkg`. -/
theorem c1_counterexample :
    reqList (addProjectDependencies [⟨"pkg", some "==2.0"⟩] mPinned oOk).doc =
      [⟨"pkg", some "==1.0"⟩, ⟨"pkg", some "==2.0"⟩] ∧
    ((reqList (addProjectDependencies [⟨"pkg", some "==2.0"⟩] mPinned oOk).doc).filter
        (fun e => nameMatch e.name "pkg")).length = 2 := by
  decide

theorem reqList_addDependency_nodup {m : Metadata} (d : Dep)
    (h : (reqList m).Nodup) : (reqList (addDependency m d)).Nodup := by
  unfold addDependency
  by_cases hc : containsDependency m d = true
  · simpa [hc]
  · simp only [Bool.not_eq_true] at hc
    have hd : d ∉ reqList m := fun hm => by
      rw [containsDependency_iff.mpr hm] at hc
      cases hc
    simp only [hc, Bool.false_eq_true, if_false]
    show (reqList m ++ [d]).Nodup
    refine List.Nodup.append h (List.nodup_singleton d) ?_
    intro a ha ha'
    rw [List.mem_singleton.mp ha'] at ha
    exact hd ha

theorem groupList_addOptionalDependency_nodup {m : Metadata} {gq : String}
    (d : Dep) (g : String) (h : (groupList m gq).Nodup) :
    (groupList (addOptionalDependency m d g) gq).Nodup := by
  unfold addOptionalDependency
  by_cases hc : containsOptionalDependency m d g = true
  · simpa [hc]
  · simp only [Bool.not_eq_true] at hc
    simp only [hc, Bool.false_eq_true, if_false]
    show ((List.lookup gq (addGroup (optsList m) g d)).getD []).Nodup
    by_cases hg : gq = g
    · subst hg
      have hd : d ∉ groupList m gq := fun hm => by
        rw [containsOptionalDependency_iff.mpr hm] at hc
        cases hc
      rw [lookup_addGroup_self]
      show (groupList m gq ++ [d]).Nodup
      refine List.Nodup.append h (List.nodup_singleton d) ?_
      intro a ha ha'
      rw [List.mem_singleton.mp ha'] at ha
      exact hd ha
    · rw [lookup_addGroup_ne _ _ hg]
      exact h

theorem addApplyRequired_nodup {m0 : Metadata} (pkgs : List Pkg) (deps : List Dep)
    (h : (reqList m0).Nodup) : (reqList (addApplyRequired m0 pkgs deps)).Nodup := by
  rw [addApplyRequired]
  refine foldl_pres (fun m => (reqList m).Nodup) _ ?_ deps _
    (foldl_pres (fun m => (reqList m).Nodup) _ ?_ _ m0 h)
  · intro m dep hm
    by_cases hc : containsDependency m dep = true
    · simpa [hc]
    · simp only [Bool.not_eq_true] at hc
      simp only [hc, Bool.false_eq_true, if_false]
      exact reqList_addDependency_nodup dep hm
  · intro m pkg hm
    exact reqList_addDependency_nodup _ hm

theorem addApplyRequired_opts (m0 : Metadata) (pkgs : List Pkg) (deps : List Dep) :
    (addApplyRequired m0 pkgs deps).optionalDependencies = m0.optionalDependencies := by
  rw [addApplyRequired]
  refine foldl_pres (fun (m : Metadata) => m.optionalDependencies = m0.optionalDependencies) _ ?_ deps _
    (foldl_pres (fun (m : Metadata) => m.optionalDependencies = m0.optionalDependencies) _ ?_ _ m0 rfl)
  · intro m dep hm
    by_cases hc : containsDependency m dep = true
    · simpa [hc]
    · simp only [Bool.not_eq_true] at hc
      simp only [hc, Bool.false_eq_true, if_false]
      rw [opts_addDependency, hm]
  · intro m pkg hm
    rw [opts_addDependency, hm]

theorem addApplyOptional_nodup {m0 : Metadata} {gq : String} (g : String)
    (pkgs : List Pkg) (deps : List Dep) (h : (groupList m0 gq).Nodup) :
    (groupList (addApplyOptional m0 g pkgs deps) gq).Nodup := by
  rw [addApplyOptional]
  refine foldl_pres (fun m => (groupList m gq).Nodup) _ ?_ deps _
    (foldl_pres (fun m => (groupList m gq).Nodup) _ ?_ _ m0 h)
  · intro m dep hm
    by_cases hc : containsOptionalDependency m dep g = true
    · simpa [hc]
    · simp only [Bool.not_eq_true] at hc
      simp only [hc, Bool.false_eq_true, if_false]
      exact groupList_addOptionalDependency_nodup dep g hm
  · intro m pkg hm
    exact groupList_addOptionalDependency_nodup _ g hm

theorem addApplyOptional_deps (m0 : Metadata) (g : String) (pkgs : List Pkg)
    (deps : List Dep) :
    (addApplyOptional m0 g pkgs deps).dependencies = m0.dependencies := by
  rw [addApplyOptional]
  refine foldl_pres (fun (m : Metadata) => m.dependencies = m0.dependencies) _ ?_ deps _
    (foldl_pres (fun (m : Metadata) => m.dependencies = m0.dependencies) _ ?_ _ m0 rfl)
  · intro m dep hm
    by_cases hc : containsOptionalDependency m dep g = true
    · simpa [hc]
    · simp only [Bool.not_eq_true] at hc
      simp only [hc, Bool.false_eq_true, if_false]
      rw [deps_addOptionalDependency, hm]
  · intro m pkg hm
    rw [deps_addOptionalDependency, hm]

theorem addProject_doc_cases (request : List Dep) (m0 : Metadata) (o : Oracle) :
    (addProjectDependencies request m0 o).doc = m0 ∨
    (addProjectDependencies request m0 o).doc =
      addApplyRequired m0 o.installedPkgs (addCandidates request m0) := by
  rw [addProjectDependencies]
  by_cases he : (addCandidates request m0).isEmpty = true
  · left; simp [he]
  · simp only [Bool.not_eq_true] at he
    by_cases hr : o.resolveOk = true
    · by_cases hi : o.installOk = true
      · by_cases hl : o.listOk = true
        · by_cases hc :
            addApplyRequired m0 o.installedPkgs (addCandidates request m0) = m0
          · left; simp [he, hr, hi, hl, hc]
          · right; simp [he, hr, hi, hl, hc]
        · simp only [Bool.not_eq_true] at hl
          left; simp [he, hr, hi, hl]
      · simp only [Bool.not_eq_true] at hi
        left; simp [he, hr, hi]
    · simp only [Bool.not_eq_true] at hr
      left; simp [he, hr]

theorem addOptProject_doc_cases (request : List Dep) (grp : String) (m0 : Metadata)
    (o : Oracle) :
    (addProjectOptionalDependencies request grp m0 o).doc = m0 ∨
    (addProjectOptionalDependencies request grp m0 o).doc =
      addApplyOptional m0 grp o.installedPkgs (addOptCandidates request grp m0) := by
  rw [addProjectOptionalDependencies]
  by_cases he : (addOptCandidates request grp m0).isEmpty = true
  · left; simp [he]
  · simp only [Bool.not_eq_true] at he
    by_cases hr : o.resolveOk = true
    · by_cases hi : o.installOk = true
      · by_cases hl : o.listOk = true
        · by_cases hc :
            addApplyOptional m0 grp o.installedPkgs (addOptCandidates request grp m0) = m0
          · left; simp [he, hr, hi, hl, hc]
          · right; simp [he, hr, hi, hl, hc]
        · simp only [Bool.not_eq_true] at hl
          left; simp [he, hr, hi, hl]
      · simp only [Bool.not_eq_true] at hi
        left; simp [he, hr, hi]
    · simp only [Bool.not_eq_true] at hr
      left; simp [he, hr]

/-- C1 amended: after any add operation no two requirements of the touched
list are exactly equal (same full requirement): an exact duplicate request
is skipped, while a request sharing only the normalized name with a
declared requirement under a different constraint is appended alongside it,
so normalized-name uniqueness is not maintained.  `add_project_dependencies`
never touches the optional table and `add_project_optional_dependencies`
never touches the required list. -/
theorem c1_exact_uniqueness (request : List Dep) (grp gq : String) (m0 : Metadata)
    (o : Oracle) :
    ((reqList m0).Nodup → (reqList (addProjectDependencies request m0 o).doc).Nodup) ∧
    (addProjectDependencies request m0 o).doc.optionalDependencies =
      m0.optionalDependencies ∧
    ((groupList m0 gq).Nodup →
      (groupList (addProjectOptionalDependencies request grp m0 o).doc gq).Nodup) ∧
    (addProjectOptionalDependencies request grp m0 o).doc.dependencies =
      m0.dependencies := by
  refine ⟨fun h => ?_, ?_, fun h => ?_, ?_⟩
  · rcases addProject_doc_cases request m0 o with hd | hd
    · rw [hd]; exact h
    · rw [hd]; exact addApplyRequired_nodup _ _ h
  · rcases addProject_doc_cases request m0 o with hd | hd
    · rw [hd]
    · rw [hd]; exact addApplyRequired_opts _ _ _
  · rcases addOptProject_doc_cases request grp m0 o with hd | hd
    · rw [hd]; exact h
    · rw [hd]; exact addApplyOptional_nodup _ _ _ h
  · rcases addOptProject_doc_cases request grp m0 o with hd | hd
    · rw [hd]
    · rw [hd]; exact addApplyOptional_deps _ _ _ _

/-- Witness for C1 amended at a concrete input: adding `ruff` to `mEx`
(required list and dev group both exactly duplicate-free) keeps both lists
exactly duplicate-free and leaves the untouched parts unchanged. -/
theorem c1_witness :
    (reqList (addProjectDependencies [⟨"ruff", none⟩] mEx oOk).doc).Nodup ∧
    (addProjectDependencies [⟨"ruff", none⟩] mEx oOk).doc.optionalDependencies =
      mEx.optionalDependencies ∧
    (groupList (addProjectOptionalDependencies [⟨"ruff", none⟩] "dev" mEx oOk).doc
      "dev").Nodup ∧
    (addProjectOptionalDependencies [⟨"ruff", none⟩] "dev" mEx oOk).doc.dependencies =
      mEx.dependencies :=
  ⟨(c1_exact_uniqueness [⟨"ruff", none⟩] "dev" "dev" mEx oOk).1 (by decide),
    (c1_exact_uniqueness [⟨"ruff", none⟩] "dev" "dev" mEx oOk).2.1,
    (c1_exact_uniqueness [⟨"ruff", none⟩] "dev" "dev" mEx oOk).2.2.1 (by decide),
    (c1_exact_uniqueness [⟨"ruff", none⟩] "dev" "dev" mEx oOk).2.2.2⟩

/-! ### Claim C3 -/

theorem addApplyRequired_mono {m0 : Metadata} {x : Dep} (pkgs : List Pkg)
    (deps : List Dep) (hx : x ∈ reqList m0) :
    x ∈ reqList (addApplyRequired m0 pkgs deps) := by
  rw [addApplyRequired]
  refine foldl_pres (fun m => x ∈ reqList m) _ ?_ deps _
    (foldl_pres (fun m => x ∈ reqList m) _ ?_ _ m0 hx)
  · intro m dep hm
    by_cases hc : containsDependency m dep = true
    · simpa [hc]
    · simp only [Bool.not_eq_true] at hc
      simp only [hc, Bool.false_eq_true, if_false]
      exact reqList_addDependency_mono _ hm
  · intro m pkg hm
    exact reqList_addDependency_mono _ hm

theorem addApplyRequired_mem_candidate {m0 : Metadata} {dep : Dep} (pkgs : List Pkg)
    (deps : List Dep) (hd : dep ∈ deps) :
    dep ∈ reqList (addApplyRequired m0 pkgs deps) := by
  rw [addApplyRequired]
  refine foldl_estab (fun m => dep ∈ reqList m) _ dep ?_ ?_ deps _ hd
  · intro b
    by_cases hc : containsDependency b dep = true
    · simpa [hc] using containsDependency_iff.mp hc
    · simp only [Bool.not_eq_true] at hc
      simp only [hc, Bool.false_eq_true, if_false]
      exact reqList_addDependency_self _ _
  · intro b x hb
    by_cases hc : containsDependency b x = true
    · simpa [hc]
    · simp only [Bool.not_eq_true] at hc
      simp only [hc, Bool.false_eq_true, if_false]
      exact reqList_addDependency_mono _ hb

theorem addApplyRequired_backfill {m0 : Metadata} {pkg : Pkg} (pkgs : List Pkg)
    (deps : List Dep) (hp : pkg ∈ pkgs)
    (hany : deps.any
      (fun dep => nameMatch pkg.name dep.name && dep.versionOrUrl.isNone) = true) :
    depOfPkg pkg ∈ reqList (addApplyRequired m0 pkgs deps) := by
  rw [addApplyRequired]
  refine foldl_pres (fun m => depOfPkg pkg ∈ reqList m) _ ?_ deps _
    (foldl_estab (fun m => depOfPkg pkg ∈ reqList m) _ pkg
      (fun b => reqList_addDependency_self _ _)
      (fun b x hb => reqList_addDependency_mono _ hb) _ m0
      (List.mem_filter.mpr ⟨hp, hany⟩))
  intro m dep hm
  by_cases hc : containsDependency m dep = true
  · simpa [hc]
  · simp only [Bool.not_eq_true] at hc
    simp only [hc, Bool.false_eq_true, if_false]
    exact reqList_addDependency_mono _ hm

theorem addApplyOptional_mono {m0 : Metadata} {x : Dep} (g : String) (pkgs : List Pkg)
    (deps : List Dep) (hx : x ∈ groupList m0 g) :
    x ∈ groupList (addApplyOptional m0 g pkgs deps) g := by
  rw [addApplyOptional]
  refine foldl_pres (fun m => x ∈ groupList m g) _ ?_ deps _
    (foldl_pres (fun m => x ∈ groupList m g) _ ?_ _ m0 hx)
  · intro m dep hm
    by_cases hc : containsOptionalDependency m dep g = true
    · simpa [hc]
    · simp only [Bool.not_eq_true] at hc
      simp only [hc, Bool.false_eq_true, if_false]
      exact groupList_addOptionalDependency_mono _ _ hm
  · intro m pkg hm
    exact groupList_addOptionalDependency_mono _ _ hm

theorem addApplyOptional_mem_candidate {m0 : Metadata} {dep : Dep} (g : String)
    (pkgs : List Pkg) (deps : List Dep) (hd : dep ∈ deps) :
    dep ∈ groupList (addApplyOptional m0 g pkgs deps) g := by
  rw [addApplyOptional]
  refine foldl_estab (fun m => dep ∈ groupList m g) _ dep ?_ ?_ deps _ hd
  · intro b
    by_cases hc : containsOptionalDependency b dep g = true
    · simpa [hc] using containsOptionalDependency_iff.mp hc
    · simp only [Bool.not_eq_true] at hc
      simp only [hc, Bool.false_eq_true, if_false]
      exact groupList_addOptionalDependency_self _ _ _
  · intro b x hb
    by_cases hc : containsOptionalDependency b x g = true
    · simpa [hc]
    · simp only [Bool.not_eq_true] at hc
      simp only [hc, Bool.false_eq_true, if_false]
      exact groupList_addOptionalDependency_mono _ _ hb

theorem addApplyOptional_backfill {m0 : Metadata} {pkg : Pkg} (g : String)
    (pkgs : List Pkg) (deps : List Dep) (hp : pkg ∈ pkgs)
    (hany : deps.any
      (fun dep => nameMatch pkg.name dep.name && dep.versionOrUrl.isNone) = true) :
    depOfPkg pkg ∈ groupList (addApplyOptional m0 g pkgs deps) g := by
  rw [addApplyOptional]
  refine foldl_pres (fun m => depOfPkg pkg ∈ groupList m g) _ ?_ deps _
    (foldl_estab (fun m => depOfPkg pkg ∈ groupList m g) _ pkg
      (fun b => groupList_addOptionalDependency_self _ _ _)
      (fun b x hb => groupList_addOptionalDependency_mono _ _ hb) _ m0
      (List.mem_filter.mpr ⟨hp, hany⟩))
  intro m dep hm
  by_cases hc : containsOptionalDependency m dep g = true
  · simpa [hc]
  · simp only [Bool.not_eq_true] at hc
    simp only [hc, Bool.false_eq_true, if_false]
    exact groupList_addOptionalDependency_mono _ _ hm

theorem addProject_doc_success (request : List Dep) (m0 : Metadata) (o : Oracle)
    (hr : o.resolveOk = true) (hi : o.installOk = true) (hl : o.listOk = true) :
    ((addCandidates request m0).isEmpty = true ∧
      (addProjectDependencies request m0 o).doc = m0) ∨
    (addProjectDependencies request m0 o).doc =
      addApplyRequired m0 o.installedPkgs (addCandidates request m0) := by
  rw [addProjectDependencies]
  by_cases he : (addCandidates request m0).isEmpty = true
  · exact Or.inl ⟨he, by simp [he]⟩
  · simp only [Bool.not_eq_true] at he
    by_cases hc : addApplyRequired m0 o.installedPkgs (addCandidates request m0) = m0
    · right
      simp only [he, Bool.false_eq_true, if_false, hr, hi, hl, Bool.not_true, hc, if_true]
    · right
      simp [he, hr, hi, hl, hc]

theorem addOptProject_doc_success (request : List Dep) (grp : String) (m0 : Metadata)
    (o : Oracle) (hr : o.resolveOk = true) (hi : o.installOk = true)
    (hl : o.listOk = true) :
    ((addOptCandidates request grp m0).isEmpty = true ∧
      (addProjectOptionalDependencies request grp m0 o).doc = m0) ∨
    (addProjectOptionalDependencies request grp m0 o).doc =
      addApplyOptional m0 grp o.installedPkgs (addOptCandidates request grp m0) := by
  rw [addProjectOptionalDependencies]
  by_cases he : (addOptCandidates request grp m0).isEmpty = true
  · exact Or.inl ⟨he, by simp [he]⟩
  · simp only [Bool.not_eq_true] at he
    by_cases hc :
        addApplyOptional m0 grp o.installedPkgs (addOptCandidates request grp m0) = m0
    · right
      simp only [he, Bool.false_eq_true, if_false, hr, hi, hl, Bool.not_true, hc, if_true]
    · right
      simp [he, hr, hi, hl, hc]

/-- C3: when the environment calls succeed, a requested dependency that
lacked a version constraint and was not already exactly declared ends up
persisted pinned to exactly the version the environment reports installed
for its name (`name==version`), and every requested dependency — in
particular one carrying a user-specified constraint — is persisted verbatim
as given; the same holds per group for the optional variant. -/
theorem c3_version_backfill (request : List Dep) (grp : String) (m0 : Metadata)
    (o : Oracle) (hr : o.resolveOk = true) (hi : o.installOk = true)
    (hl : o.listOk = true) :
    ((∀ dep ∈ request, dep.versionOrUrl = none → containsDependency m0 dep = false →
        ∀ pkg ∈ o.installedPkgs, nameMatch pkg.name dep.name = true →
          depOfPkg pkg ∈ reqList (addProjectDependencies request m0 o).doc) ∧
      (∀ dep ∈ request, dep ∈ reqList (addProjectDependencies request m0 o).doc)) ∧
    ((∀ dep ∈ request, dep.versionOrUrl = none →
        containsOptionalDependency m0 dep grp = false →
        ∀ pkg ∈ o.installedPkgs, nameMatch pkg.name dep.name = true →
          depOfPkg pkg ∈
            groupList (addProjectOptionalDependencies request grp m0 o).doc grp) ∧
      (∀ dep ∈ request,
        dep ∈ groupList (addProjectOptionalDependencies request grp m0 o).doc grp)) := by
  refine ⟨⟨fun dep hdep hv hc pkg hpkg hn => ?_, fun dep hdep => ?_⟩,
    ⟨fun dep hdep hv hc pkg hpkg hn => ?_, fun dep hdep => ?_⟩⟩
  · have hcand : dep ∈ addCandidates request m0 :=
      List.mem_filter.mpr ⟨hdep, by simp [hc]⟩
    rcases addProject_doc_success request m0 o hr hi hl with ⟨hemp, _⟩ | hdoc
    · rw [List.isEmpty_iff] at hemp
      rw [hemp] at hcand
      cases hcand
    · rw [hdoc]
      exact addApplyRequired_backfill _ _ hpkg
        (List.any_eq_true.mpr ⟨dep, hcand, by simp [hn, hv]⟩)
  · rcases addProject_doc_success request m0 o hr hi hl with ⟨hemp, hdoc⟩ | hdoc
    · rw [List.isEmpty_iff] at hemp
      have hcon : containsDependency m0 dep = true := by
        have := List.filter_eq_nil_iff.mp hemp dep hdep
        simpa using this
      rw [hdoc]
      exact containsDependency_iff.mp hcon
    · rw [hdoc]
      by_cases hc : containsDependency m0 dep = true
      · exact addApplyRequired_mono _ _ (containsDependency_iff.mp hc)
      · simp only [Bool.not_eq_true] at hc
        exact addApplyRequired_mem_candidate _ _
          (List.mem_filter.mpr ⟨hdep, by simp [hc]⟩)
  · have hcand : dep ∈ addOptCandidates request grp m0 :=
      List.mem_filter.mpr ⟨hdep, by simp [hc]⟩
    rcases addOptProject_doc_success request grp m0 o hr hi hl with ⟨hemp, _⟩ | hdoc
    · rw [List.isEmpty_iff] at hemp
      rw [hemp] at hcand
      cases hcand
    · rw [hdoc]
      exact addApplyOptional_backfill _ _ _ hpkg
        (List.any_eq_true.mpr ⟨dep, hcand, by simp [hn, hv]⟩)
  · rcases addOptProject_doc_success request grp m0 o hr hi hl with ⟨hemp, hdoc⟩ | hdoc
    · rw [List.isEmpty_iff] at hemp
      have hcon : containsOptionalDependency m0 dep grp = true := by
        have := List.filter_eq_nil_iff.mp hemp dep hdep
        simpa using this
      rw [hdoc]
      exact containsOptionalDependency_iff.mp hcon
    · rw [hdoc]
      by_cases hc : containsOptionalDependency m0 dep grp = true
      · exact addApplyOptional_mono _ _ _ (containsOptionalDependency_iff.mp hc)
      · simp only [Bool.not_eq_true] at hc
        exact addApplyOptional_mem_candidate _ _ _
          (List.mem_filter.mpr ⟨hdep, by simp [hc]⟩)

/-- An oracle whose environment reports `ruff 0.0.265` installed. -/
def oRuffInstalled : Oracle :=
  ⟨true, true, true, true, true, true, [⟨"ruff", "0.0.265"⟩], [], .found⟩

/-- Witness for C3 at a concrete input: adding version-less `ruff` to `mEx`
with the environment reporting `ruff 0.0.265` persists `ruff==0.0.265` (and
the constrained `click==8.1.3` of a second request is persisted
verbatim). -/
theorem c3_witness :
    depOfPkg ⟨"ruff", "0.0.265"⟩ ∈
      reqList (addProjectDependencies [⟨"ruff", none⟩] mEx oRuffInstalled).doc ∧
    ⟨"flask", some ">=2"⟩ ∈
      reqList (addProjectDependencies [⟨"flask", some ">=2"⟩] mEx oRuffInstalled).doc ∧
    depOfPkg ⟨"ruff", "0.0.265"⟩ ∈
      groupList
        (addProjectOptionalDependencies [⟨"ruff", none⟩] "dev" mEx oRuffInstalled).doc
        "dev" :=
  ⟨((c3_version_backfill [⟨"ruff", none⟩] "dev" mEx oRuffInstalled rfl rfl rfl).1).1
      ⟨"ruff", none⟩ (by decide) rfl (by decide) ⟨"ruff", "0.0.265"⟩ (by decide)
      (by decide),
    ((c3_version_backfill [⟨"flask", some ">=2"⟩] "dev" mEx oRuffInstalled rfl rfl
        rfl).1).2 ⟨"flask", some ">=2"⟩ (by decide),
    ((c3_version_backfill [⟨"ruff", none⟩] "dev" mEx oRuffInstalled rfl rfl rfl).2).1
      ⟨"ruff", none⟩ (by decide) rfl (by decide) ⟨"ruff", "0.0.265"⟩ (by decide)
      (by decide)⟩

/-! ### Claim C5 -/

theorem reqList_removeDependency (m : Metadata) (d : Dep) :
    reqList (removeDependency m d) =
      (reqList m).filter (fun e => !nameMatch e.name d.name) := by
  cases h : m.dependencies <;> simp [removeDependency, h, reqList]

theorem opts_removeDependency (m : Metadata) (d : Dep) :
    (removeDependency m d).optionalDependencies = m.optionalDependencies := by
  cases h : m.dependencies <;> simp [removeDependency, h]

theorem optsList_removeDependency (m : Metadata) (d : Dep) :
    optsList (removeDependency m d) = optsList m := by
  rw [optsList, opts_removeDependency, optsList]

theorem optsList_removeOptionalDependency (m : Metadata) (d : Dep) (g : String) :
    optsList (removeOptionalDependency m d g) = (optsList m).map (removeGroupEntry d g) := by
  cases h : m.optionalDependencies <;> simp [removeOptionalDependency, h, optsList]

theorem deps_removeOptionalDependency (m : Metadata) (d : Dep) (g : String) :
    (removeOptionalDependency m d g).dependencies = m.dependencies := by
  cases h : m.optionalDependencies <;> simp [removeOptionalDependency, h]

theorem reqList_removeOptionalDependency (m : Metadata) (d : Dep) (g : String) :
    reqList (removeOptionalDependency m d g) = reqList m := by
  rw [reqList, deps_removeOptionalDependency, reqList]

theorem optsList_foldRemoveOpt (d : Dep) :
    ∀ (gs : List String) (m : Metadata),
      optsList (gs.foldl (fun m g => removeOptionalDependency m d g) m) =
        (optsList m).map (fun p =>
          if p.1 ∈ gs then (p.1, p.2.filter (fun e => !nameMatch e.name d.name)) else p) := by
  intro gs
  induction gs with
  | nil => intro m; simp
  | cons g gs ih =>
    intro m
    rw [List.foldl_cons, ih, optsList_removeOptionalDependency, List.map_map]
    refine List.map_congr_left ?_
    intro p _
    by_cases h1 : p.1 = g
    · by_cases h2 : p.1 ∈ gs <;>
        simp [Function.comp, removeGroupEntry, h1, h2, List.filter_filter]
    · by_cases h2 : p.1 ∈ gs <;>
        simp [Function.comp, removeGroupEntry, h1, h2]

theorem keys_foldRemoveOpt (d : Dep) (gs : List String) (m : Metadata) :
    (optsList (gs.foldl (fun m g => removeOptionalDependency m d g) m)).map Prod.fst =
      (optsList m).map Prod.fst := by
  rw [optsList_foldRemoveOpt, List.map_map]
  refine List.map_congr_left ?_
  intro p _
  by_cases h : p.1 ∈ gs <;> simp [Function.comp, h]

/-- The document declares no requirement whose normalized name matches
`d` — neither in the required list nor in any entry of the optional
table. -/
def cleanFor (m : Metadata) (d : Dep) : Prop :=
  (∀ e ∈ reqList m, nameMatch e.name d.name = false) ∧
  (∀ p ∈ optsList m, ∀ e ∈ p.2, nameMatch e.name d.name = false)

/-- One removal step of `remove_project_dependencies` for the processed
dependency itself leaves the document clean of its name, provided the group
list covers every key of the table. -/
theorem clean_removeStep (m : Metadata) (d : Dep) (gs : List String)
    (hkeys : ∀ k ∈ (optsList m).map Prod.fst, k ∈ gs) :
    cleanFor (gs.foldl (fun m g => removeOptionalDependency m d g) (removeDependency m d))
      d := by
  constructor
  · have hreq :
        reqList (gs.foldl (fun m g => removeOptionalDependency m d g)
          (removeDependency m d)) = reqList (removeDependency m d) :=
      foldl_pres (fun m' => reqList m' = reqList (removeDependency m d)) _
        (fun m' g hm' => by
          have hm'' : reqList m' = reqList (removeDependency m d) := hm'
          show reqList (removeOptionalDependency m' d g) = reqList (removeDependency m d)
          rw [reqList_removeOptionalDependency, hm'']) gs _ rfl
    rw [hreq, reqList_removeDependency]
    intro e he
    have := (List.mem_filter.mp he).2
    simpa using this
  · intro p hp e hep
    rw [optsList_foldRemoveOpt, optsList_removeDependency] at hp
    obtain ⟨q, hq, rfl⟩ := List.mem_map.mp hp
    have hk : q.1 ∈ gs := hkeys q.1 (List.mem_map_of_mem Prod.fst hq)
    rw [if_pos hk] at hep
    have := (List.mem_filter.mp hep).2
    simpa using this

theorem clean_pres_removeDependency {m : Metadata} {d : Dep} (d' : Dep)
    (h : cleanFor m d) : cleanFor (removeDependency m d') d := by
  obtain ⟨h1, h2⟩ := h
  constructor
  · rw [reqList_removeDependency]
    intro e he
    exact h1 e (List.mem_filter.mp he).1
  · intro p hp e hep
    rw [optsList_removeDependency] at hp
    exact h2 p hp e hep

theorem clean_pres_removeOptionalDependency {m : Metadata} {d : Dep} (d' : Dep)
    (g : String) (h : cleanFor m d) : cleanFor (removeOptionalDependency m d' g) d := by
  obtain ⟨h1, h2⟩ := h
  constructor
  · rw [reqList_removeOptionalDependency]
    exact h1
  · intro p hp e hep
    rw [optsList_removeOptionalDependency] at hp
    obtain ⟨q, hq, rfl⟩ := List.mem_map.mp hp
    by_cases hg : q.1 = g
    · rw [removeGroupEntry, if_pos hg] at hep
      exact h2 q hq e (List.mem_filter.mp hep).1
    · rw [removeGroupEntry, if_neg hg] at hep
      exact h2 q hq e hep

theorem removeApply_clean {d : Dep} (deps : List Dep) (m0 : Metadata)
    (hd : d ∈ deps) : cleanFor (removeApply m0 deps) d := by
  rw [removeApply]
  refine foldl_estab_inv (fun m => cleanFor m d)
    (fun m => (optsList m).map Prod.fst = (optsList m0).map Prod.fst)
    _ d ?_ ?_ ?_ deps m0 rfl hd
  · intro b x hb
    rw [keys_foldRemoveOpt, optsList_removeDependency]
    exact hb
  · intro b hb
    refine clean_removeStep b d _ ?_
    intro k hk
    rw [hb] at hk
    exact hk
  · intro b x hb
    exact foldl_pres (fun m => cleanFor m d) _
      (fun m' g hm' => clean_pres_removeOptionalDependency x g hm') _ _
      (clean_pres_removeDependency x hb)

theorem removeProject_doc (deps : List Dep) (m0 : Metadata) (o : Oracle)
    (hne : (removeCandidates deps m0).isEmpty = false) :
    (removeProjectDependencies deps m0 o).doc =
      removeApply m0 (removeCandidates deps m0) := by
  rw [removeProjectDependencies]
  simp only [hne, Bool.false_eq_true, if_false]
  cases o.currentEnv <;> by_cases hu : o.uninstallOk = true <;> simp [hu]

/-- C5: for every requested dependency declared anywhere by identity,
`remove_project_dependencies` erases every requirement with its normalized
name from the required list and from every optional group; if an
environment is found the candidate batch is uninstalled from it (success
when the uninstall succeeds), and if no environment is found the operation
still returns success. -/
theorem c5_removal_cascade (request : List Dep) (m0 : Metadata) (o : Oracle) (d : Dep)
    (hd : d ∈ request) (hdecl : containsDependencyAny m0 d = true) :
    cleanFor (removeProjectDependencies request m0 o).doc d ∧
    (o.currentEnv = .notFound → (removeProjectDependencies request m0 o).err = none) ∧
    (o.currentEnv = .found →
      Event.uninstall (removeCandidates request m0) ∈
        (removeProjectDependencies request m0 o).events ∧
      (o.uninstallOk = true → (removeProjectDependencies request m0 o).err = none)) := by
  have hcand : d ∈ removeCandidates request m0 :=
    List.mem_filter.mpr ⟨hd, hdecl⟩
  have hne : (removeCandidates request m0).isEmpty = false := by
    cases h : removeCandidates request m0 with
    | nil => rw [h] at hcand; cases hcand
    | cons a t => rfl
  refine ⟨?_, fun henv => ?_, fun henv => ?_⟩
  · rw [removeProject_doc request m0 o hne]
    exact removeApply_clean _ m0 hcand
  · rw [removeProjectDependencies]
    simp [hne, henv]
  · rw [removeProjectDependencies]
    constructor
    · by_cases hu : o.uninstallOk = true <;> simp [hne, henv, hu]
    · intro hu
      simp [hne, henv, hu]

/-- A document declaring `click` both as a required dependency and in the
"dev" group. -/
def mClickBoth : Metadata :=
  ⟨some [⟨"click", some "==8.1.3"⟩],
    some [("dev", [⟨"click", some "==8.1.3"⟩, ⟨"pytest", none⟩])]⟩

/-- Witness for C5 at a concrete input: removing `click` from a document
declaring it in the required list and in the "dev" group leaves no
`click` entry anywhere, emits the uninstall of the candidate batch and
succeeds; with no environment it also succeeds. -/
theorem c5_witness :
    cleanFor (removeProjectDependencies [⟨"click", none⟩] mClickBoth oOk).doc
      ⟨"click", none⟩ ∧
    Event.uninstall (removeCandidates [⟨"click", none⟩] mClickBoth) ∈
      (removeProjectDependencies [⟨"click", none⟩] mClickBoth oOk).events ∧
    (removeProjectDependencies [⟨"click", none⟩] mClickBoth oOk).err = none :=
  ⟨(c5_removal_cascade [⟨"click", none⟩] mClickBoth oOk ⟨"click", none⟩ (by decide)
      (by decide)).1,
    ((c5_removal_cascade [⟨"click", none⟩] mClickBoth oOk ⟨"click", none⟩ (by decide)
      (by decide)).2.2 rfl).1,
    ((c5_removal_cascade [⟨"click", none⟩] mClickBoth oOk ⟨"click", none⟩ (by decide)
      (by decide)).2.2 rfl).2 rfl⟩

/-! ### Claim C9 -/

/-- An oracle reporting `mypy 1.0` and `ruff 0.1` installed, with every
call succeeding. -/
def oMypyRuff : Oracle :=
  ⟨true, true, true, true, true, true, [⟨"mypy", "1.0"⟩, ⟨"ruff", "0.1"⟩], [], .found⟩

/-- The empty metadata document. -/
def mEmpty : Metadata := ⟨none, none⟩

/-- Counterexample to C9 as stated: `lint_project` treats `mypy` as a
helper only when type checking is included; with `include_types = false`,
`mypy` undeclared and the environment reporting it installed, the command
succeeds without appending any `mypy` requirement to the "dev" group. -/
theorem c9_counterexample :
    (lintProject false mEmpty oMypyRuff).err = none ∧
    containsDependencyAny mEmpty ⟨"mypy", none⟩ = false ∧
    ⟨"mypy", "1.0"⟩ ∈ oMypyRuff.installedPkgs ∧
    (∀ e ∈ groupList (lintProject false mEmpty oMypyRuff).doc "dev",
      nameMatch e.name "mypy" = false) := by
  decide

theorem nameMatch_symm (a b : String) : nameMatch a b = nameMatch b a := by
  simp [nameMatch, eq_comm]

theorem devPinFold_mem {m0 : Metadata} {pkg : Pkg} (pkgs : List Pkg) (hp : pkg ∈ pkgs) :
    depOfPkg pkg ∈ groupList (devPinFold m0 pkgs) "dev" := by
  rw [devPinFold]
  exact foldl_estab (fun m => depOfPkg pkg ∈ groupList m "dev") _ pkg
    (fun b => groupList_addOptionalDependency_self _ _ _)
    (fun b x hb => groupList_addOptionalDependency_mono _ _ hb) _ m0 hp

theorem finishTool_doc (evs : List Event) (m0 m1 : Metadata) (o : Oracle)
    (tool : String) : (finishTool evs m0 m1 o tool).doc = m1 := by
  rw [finishTool]
  by_cases h : m1 = m0 <;> by_cases hrun : o.runOk = true <;> simp [h, hrun]

theorem formatRun_doc (evs : List Event) (m0 m1 : Metadata) (o : Oracle) :
    (formatRun evs m0 m1 o).doc = m1 := by
  rw [formatRun]
  by_cases h : m1 = m0 <;> by_cases hrun : o.runOk = true <;> simp [h, hrun]

theorem helperTool_doc (helper : String) (m0 : Metadata) (o : Oracle)
    (hr : o.resolveOk = true) (hi : o.installOk = true) (hl : o.listOk = true) :
    (containsDependencyAny m0 ⟨helper, none⟩ = true →
      (helperToolProject helper m0 o).doc = m0) ∧
    (containsDependencyAny m0 ⟨helper, none⟩ = false →
      (helperToolProject helper m0 o).doc =
        devPinFold m0 (o.installedPkgs.filter (fun pkg => nameMatch pkg.name helper))) := by
  constructor
  · intro hc
    rw [helperToolProject]
    simp only [hr, hi, hl, hc, Bool.not_true, Bool.and_false, Bool.false_eq_true,
      if_false, if_true]
    exact finishTool_doc _ _ _ _ _
  · intro hc
    rw [helperToolProject]
    simp only [hr, hi, hl, hc, Bool.not_true, Bool.and_false, Bool.false_eq_true,
      if_false]
    exact finishTool_doc _ _ _ _ _

theorem formatProject_doc (m0 : Metadata) (o : Oracle) (hr : o.resolveOk = true)
    (hi : o.installOk = true) (hl : o.listOk = true) :
    ((formatNewNames m0).isEmpty = true → (formatProject m0 o).doc = m0) ∧
    ((formatNewNames m0).isEmpty = false →
      (formatProject m0 o).doc =
        devPinFold m0 (o.installedPkgs.filter
          (fun pkg => (formatNewNames m0).any (fun n => nameMatch n pkg.name)))) := by
  constructor
  · intro he
    rw [formatProject]
    simp only [hr, hi, hl, he, Bool.not_true, Bool.and_false, Bool.false_eq_true,
      if_false, if_true]
    exact formatRun_doc _ _ _ _
  · intro he
    rw [formatProject]
    simp only [hr, hi, hl, he, Bool.not_true, Bool.and_false, Bool.false_eq_true,
      if_false]
    exact formatRun_doc _ _ _ _

theorem lintFinish_doc (evs : List Event) (it : Bool) (m0 : Metadata) (o : Oracle)
    (hl : o.listOk = true) :
    ((lintNewNames it m0).isEmpty = true → (lintFinish evs it m0 o).doc = m0) ∧
    ((lintNewNames it m0).isEmpty = false →
      (lintFinish evs it m0 o).doc =
        devPinFold m0 (o.installedPkgs.filter
          (fun pkg => (lintNewNames it m0).any (fun n => nameMatch n pkg.name)))) := by
  constructor
  · intro he
    rw [lintFinish]
    simp only [he, if_true]
  · intro he
    rw [lintFinish]
    simp only [he, Bool.false_eq_true, if_false, hl, Bool.not_true]
    by_cases hc : devPinFold m0 (o.installedPkgs.filter
        (fun pkg => (lintNewNames it m0).any (fun n => nameMatch n pkg.name))) = m0
    · simp only [hc, if_true]
    · simp only [hc, Bool.false_eq_true, if_false]

theorem lintProject_eq_finish (it : Bool) (m0 : Metadata) (o : Oracle)
    (hr : o.resolveOk = true) (hi : o.installOk = true) (hrun : o.runOk = true) :
    ∃ evs, lintProject it m0 o = lintFinish evs it m0 o := by
  rw [lintProject]
  simp only [hr, hi, hrun, Bool.not_true, Bool.and_false, Bool.false_eq_true, if_false]
  exact ⟨_, rfl⟩

/-- C9 amended: under succeeding environment calls, each tooling command
appends its undeclared helpers — pinned to the installed version the
environment reports — to the optional "dev" group, and leaves the document
unchanged when the helpers are already declared anywhere; the helpers are
build / pytest / twine for build, test and publish, black and ruff for
format, and for lint ruff always but mypy only when type checking is
included. -/
theorem c9_tooling_dev_pin (m0 : Metadata) (o : Oracle) (it : Bool)
    (hr : o.resolveOk = true) (hi : o.installOk = true) (hl : o.listOk = true)
    (hrun : o.runOk = true) :
    ((containsDependencyAny m0 ⟨"build", none⟩ = true → (buildProject m0 o).doc = m0) ∧
      (containsDependencyAny m0 ⟨"build", none⟩ = false →
        ∀ pkg ∈ o.installedPkgs, nameMatch pkg.name "build" = true →
          depOfPkg pkg ∈ groupList (buildProject m0 o).doc "dev")) ∧
    ((containsDependencyAny m0 ⟨"pytest", none⟩ = true → (testProject m0 o).doc = m0) ∧
      (containsDependencyAny m0 ⟨"pytest", none⟩ = false →
        ∀ pkg ∈ o.installedPkgs, nameMatch pkg.name "pytest" = true →
          depOfPkg pkg ∈ groupList (testProject m0 o).doc "dev")) ∧
    ((containsDependencyAny m0 ⟨"twine", none⟩ = true → (publishProject m0 o).doc = m0) ∧
      (containsDependencyAny m0 ⟨"twine", none⟩ = false →
        ∀ pkg ∈ o.installedPkgs, nameMatch pkg.name "twine" = true →
          depOfPkg pkg ∈ groupList (publishProject m0 o).doc "dev")) ∧
    (((formatNewNames m0).isEmpty = true → (formatProject m0 o).doc = m0) ∧
      (∀ h : String, h = "black" ∨ h = "ruff" →
        containsDependencyAny m0 ⟨h, none⟩ = false →
        ∀ pkg ∈ o.installedPkgs, nameMatch pkg.name h = true →
          depOfPkg pkg ∈ groupList (formatProject m0 o).doc "dev")) ∧
    (((lintNewNames it m0).isEmpty = true → (lintProject it m0 o).doc = m0) ∧
      (∀ d ∈ lintDeps it, containsDependencyAny m0 d = false →
        ∀ pkg ∈ o.installedPkgs, nameMatch pkg.name d.name = true →
          depOfPkg pkg ∈ groupList (lintProject it m0 o).doc "dev")) := by
  have hmain : ∀ helper : String,
      (containsDependencyAny m0 ⟨helper, none⟩ = true →
        (helperToolProject helper m0 o).doc = m0) ∧
      (containsDependencyAny m0 ⟨helper, none⟩ = false →
        ∀ pkg ∈ o.installedPkgs, nameMatch pkg.name helper = true →
          depOfPkg pkg ∈ groupList (helperToolProject helper m0 o).doc "dev") := by
    intro helper
    refine ⟨(helperTool_doc helper m0 o hr hi hl).1, fun hc pkg hpkg hn => ?_⟩
    rw [(helperTool_doc helper m0 o hr hi hl).2 hc]
    exact devPinFold_mem _ (List.mem_filter.mpr ⟨hpkg, hn⟩)
  refine ⟨hmain "build", hmain "pytest", hmain "twine",
    ⟨(formatProject_doc m0 o hr hi hl).1, fun h hh hc pkg hpkg hn => ?_⟩,
    ⟨?_, fun d hd hc pkg hpkg hn => ?_⟩⟩
  · have hmem : h ∈ formatNewNames m0 := by
      rw [formatNewNames]
      refine List.mem_map.mpr ⟨⟨h, none⟩, List.mem_filter.mpr ⟨?_, by simp [hc]⟩, rfl⟩
      rcases hh with rfl | rfl <;> simp
    have hne : (formatNewNames m0).isEmpty = false := by
      cases hfn : formatNewNames m0 with
      | nil => rw [hfn] at hmem; cases hmem
      | cons a t => rfl
    rw [(formatProject_doc m0 o hr hi hl).2 hne]
    refine devPinFold_mem _ (List.mem_filter.mpr ⟨hpkg, ?_⟩)
    exact List.any_eq_true.mpr ⟨h, hmem, by rw [nameMatch_symm]; exact hn⟩
  · intro he
    obtain ⟨evs, heq⟩ := lintProject_eq_finish it m0 o hr hi hrun
    rw [heq]
    exact (lintFinish_doc evs it m0 o hl).1 he
  · have hmem : d.name ∈ lintNewNames it m0 := by
      rw [lintNewNames]
      exact List.mem_map.mpr ⟨d, List.mem_filter.mpr ⟨hd, by simp [hc]⟩, rfl⟩
    have hne : (lintNewNames it m0).isEmpty = false := by
      cases hfn : lintNewNames it m0 with
      | nil => rw [hfn] at hmem; cases hmem
      | cons a t => rfl
    obtain ⟨evs, heq⟩ := lintProject_eq_finish it m0 o hr hi hrun
    rw [heq, (lintFinish_doc evs it m0 o hl).2 hne]
    refine devPinFold_mem _ (List.mem_filter.mpr ⟨hpkg, ?_⟩)
    exact List.any_eq_true.mpr ⟨d.name, hmem, by rw [nameMatch_symm]; exact hn⟩

/-- An oracle reporting `build 0.10.0` installed. -/
def oBuildPkg : Oracle :=
  ⟨true, true, true, true, true, true, [⟨"build", "0.10.0"⟩], [], .found⟩

/-- Witness for C9 amended at concrete inputs: on the empty document with
`build 0.10.0` installed, `build_project` pins `build==0.10.0` into "dev";
on `mEx` (which already declares `pytest`), `test_project` leaves the
document unchanged; with `include_types = true` lint pins the installed
`mypy`. -/
theorem c9_witness :
    depOfPkg ⟨"build", "0.10.0"⟩ ∈ groupList (buildProject mEmpty oBuildPkg).doc "dev" ∧
    (testProject mEx oBuildPkg).doc = mEx ∧
    depOfPkg ⟨"mypy", "1.0"⟩ ∈ groupList (lintProject true mEmpty oMypyRuff).doc "dev" :=
  ⟨((c9_tooling_dev_pin mEmpty oBuildPkg true rfl rfl rfl rfl).1).2 (by decide)
      ⟨"build", "0.10.0"⟩ (by decide) (by decide),
    ((c9_tooling_dev_pin mEx oBuildPkg true rfl rfl rfl rfl).2.1).1 (by decide),
    ((c9_tooling_dev_pin mEmpty oMypyRuff true rfl rfl rfl rfl).2.2.2.2).2
      ⟨"mypy", none⟩ (by decide) (by decide) ⟨"mypy", "1.0"⟩ (by decide) (by decide)⟩

end Huak
